import Mathlib

/-!
# JOIN clause decomposition, YAML configuration and large objects

Shallow embeddings of three parts of the code base, with the properties proved
about them:

* `DB::JoinClause` (Planner/PlannerJoins.h) and the operations that mutate it,
  the clause builder and the constant probe that the header declares;
* `processNode` (Common/Config/YAMLParser.cpp), which turns a YAML node into an
  XML DOM;
* `DBPoco::Data::LOB` (DBPoco/Data/LOB.h).

Conventions of the embedding
* `const ActionsDAG::Node *` and `QueryTreeNodePtr` are opaque handles in the
  header, so the clause is parametrised by a type `ν` of DAG node handles and a
  type `ε` of query tree expression handles.
* `std::vector` is a `List`; `emplace_back` / `push_back` append at the end.
* `std::unordered_set<size_t>` is a duplicate free `List Nat` with `emplace`
  and `contains`.
* `size_t` values are vector sizes and indexes; they are far below `2 ^ 64`,
  so they are plain `Nat`.  `left_key_nodes.size() - 1` is always evaluated
  right after an `emplace_back`, hence never wraps.
* A thrown exception is the `error` of an `Except`; the state built so far is
  dropped with it.
-/

namespace DB

/-! ## Data model -/

/-- Modelled from the spec: the enumeration `JoinTableSide` of `Core/Joins.h`
(the header is not part of the sources at hand); a join has a left and a right
input stream. -/
inductive JoinTableSide where
  | Left
  | Right
deriving DecidableEq

/-- Modelled from the spec: the enumeration `ASOFJoinInequality` of
`Core/Joins.h` (not part of the sources at hand); the spec lists the
inequality of an ASOF condition as one of `<`, `<=`, `>`, `>=`. -/
inductive ASOFJoinInequality where
  | Less
  | LessOrEquals
  | Greater
  | GreaterOrEquals
deriving DecidableEq

/-- The `struct ASOFCondition` of the header. -/
structure ASOFCondition where
  key_index : Nat
  asof_inequality : ASOFJoinInequality
deriving DecidableEq

/-- The `std::unordered_set<size_t>::emplace` operation: inserting a value that
is already present changes nothing. -/
def unorderedSetEmplace (s : List Nat) (idx : Nat) : List Nat :=
  if idx ∈ s then s else s ++ [idx]

/-- The `std::unordered_set<size_t>::contains` operation. -/
def unorderedSetContains (s : List Nat) (idx : Nat) : Bool :=
  decide (idx ∈ s)

/-- The private data members of `class JoinClause`. -/
structure JoinClause (ν ε : Type) where
  left_key_nodes : List ν
  right_key_nodes : List ν
  left_key_expression_nodes : List ε
  right_key_expression_nodes : List ε
  asof_conditions : List ASOFCondition
  left_filter_condition_nodes : List ν
  right_filter_condition_nodes : List ν
  mixed_filter_condition_nodes : List ν
  nullsafe_compare_key_indexes : List Nat
deriving DecidableEq

namespace JoinClause

variable {ν ε : Type}

/-- A default constructed `JoinClause`: every container is empty. -/
def empty : JoinClause ν ε :=
  { left_key_nodes := []
    right_key_nodes := []
    left_key_expression_nodes := []
    right_key_expression_nodes := []
    asof_conditions := []
    left_filter_condition_nodes := []
    right_filter_condition_nodes := []
    mixed_filter_condition_nodes := []
    nullsafe_compare_key_indexes := [] }

/-- The member function `JoinClause::addKey`. -/
def addKey (c : JoinClause ν ε) (left_key_node : ν) (left_key_expression : ε)
    (right_key_node : ν) (right_key_expression : ε)
    (null_safe_comparison : Bool) : JoinClause ν ε :=
  let left_key_nodes := c.left_key_nodes ++ [left_key_node]
  { c with
    left_key_nodes := left_key_nodes
    left_key_expression_nodes := c.left_key_expression_nodes ++ [left_key_expression]
    right_key_nodes := c.right_key_nodes ++ [right_key_node]
    right_key_expression_nodes := c.right_key_expression_nodes ++ [right_key_expression]
    nullsafe_compare_key_indexes :=
      if null_safe_comparison then
        unorderedSetEmplace c.nullsafe_compare_key_indexes (left_key_nodes.length - 1)
      else c.nullsafe_compare_key_indexes }

/-- The member function `JoinClause::addASOFKey`. -/
def addASOFKey (c : JoinClause ν ε) (left_key_node : ν) (left_key_expression : ε)
    (right_key_node : ν) (right_key_expression : ε)
    (asof_inequality : ASOFJoinInequality) : JoinClause ν ε :=
  let left_key_nodes := c.left_key_nodes ++ [left_key_node]
  { c with
    left_key_nodes := left_key_nodes
    left_key_expression_nodes := c.left_key_expression_nodes ++ [left_key_expression]
    right_key_nodes := c.right_key_nodes ++ [right_key_node]
    right_key_expression_nodes := c.right_key_expression_nodes ++ [right_key_expression]
    asof_conditions :=
      c.asof_conditions ++ [{ key_index := left_key_nodes.length - 1
                              asof_inequality := asof_inequality }] }

/-- The member function `JoinClause::addCondition`: the condition node goes to the filter list of
the given side, and the expression node goes to the key expression list of the
same side. -/
def addCondition (c : JoinClause ν ε) (table_side : JoinTableSide)
    (condition_node : ν) (expression_node : ε) : JoinClause ν ε :=
  let c1 : JoinClause ν ε :=
    if table_side = JoinTableSide.Left then
      { c with left_filter_condition_nodes := c.left_filter_condition_nodes ++ [condition_node] }
    else
      { c with right_filter_condition_nodes := c.right_filter_condition_nodes ++ [condition_node] }
  if table_side = JoinTableSide.Left then
    { c1 with left_key_expression_nodes := c1.left_key_expression_nodes ++ [expression_node] }
  else
    { c1 with right_key_expression_nodes := c1.right_key_expression_nodes ++ [expression_node] }

/-- The member function `JoinClause::addMixedCondition`. -/
def addMixedCondition (c : JoinClause ν ε) (condition_node : ν) : JoinClause ν ε :=
  { c with mixed_filter_condition_nodes := c.mixed_filter_condition_nodes ++ [condition_node] }

/-- The member function `JoinClause::getLeftKeyNodes`. -/
def getLeftKeyNodes (c : JoinClause ν ε) : List ν := c.left_key_nodes

/-- The member function `JoinClause::getLeftKeyExpressionNodes`. -/
def getLeftKeyExpressionNodes (c : JoinClause ν ε) : List ε := c.left_key_expression_nodes

/-- The member function `JoinClause::getRightKeyNodes`. -/
def getRightKeyNodes (c : JoinClause ν ε) : List ν := c.right_key_nodes

/-- The member function `JoinClause::getRightKeyExpressionNodes`. -/
def getRightKeyExpressionNodes (c : JoinClause ν ε) : List ε := c.right_key_expression_nodes

/-- The member function `JoinClause::isNullsafeCompareKey`. -/
def isNullsafeCompareKey (c : JoinClause ν ε) (idx : Nat) : Bool :=
  unorderedSetContains c.nullsafe_compare_key_indexes idx

/-- The member function `JoinClause::hasASOF`. -/
def hasASOF (c : JoinClause ν ε) : Bool := !c.asof_conditions.isEmpty

/-- The member function `JoinClause::getASOFConditions`. -/
def getASOFConditions (c : JoinClause ν ε) : List ASOFCondition := c.asof_conditions

/-- The member function `JoinClause::getLeftFilterConditionNodes`. -/
def getLeftFilterConditionNodes (c : JoinClause ν ε) : List ν := c.left_filter_condition_nodes

/-- The member function `JoinClause::getRightFilterConditionNodes`. -/
def getRightFilterConditionNodes (c : JoinClause ν ε) : List ν := c.right_filter_condition_nodes

/-- The member function `JoinClause::getMixedFilterConditionNodes`. -/
def getMixedFilterConditionNodes (c : JoinClause ν ε) : List ν := c.mixed_filter_condition_nodes

end JoinClause

/-! ## Call sequences

The clause is only ever changed through its four mutating member functions.  A
`Call` records one invocation with its arguments; `JoinClause.run` replays a
sequence of invocations on a default constructed clause. -/

/-- One invocation of a mutating member function of `JoinClause`. -/
inductive Call (ν ε : Type) where
  | addKey (left_key_node : ν) (left_key_expression : ε) (right_key_node : ν)
      (right_key_expression : ε) (null_safe_comparison : Bool)
  | addASOFKey (left_key_node : ν) (left_key_expression : ε) (right_key_node : ν)
      (right_key_expression : ε) (asof_inequality : ASOFJoinInequality)
  | addCondition (table_side : JoinTableSide) (condition_node : ν) (expression_node : ε)
  | addMixedCondition (condition_node : ν)
deriving DecidableEq

namespace JoinClause

variable {ν ε : Type}

/-- Perform one invocation on a clause. -/
def step (c : JoinClause ν ε) : Call ν ε → JoinClause ν ε
  | .addKey l le r re ns => c.addKey l le r re ns
  | .addASOFKey l le r re ineq => c.addASOFKey l le r re ineq
  | .addCondition side n e => c.addCondition side n e
  | .addMixedCondition n => c.addMixedCondition n

/-- Perform a sequence of invocations, first to last, starting from `c`. -/
def runFrom (c : JoinClause ν ε) (calls : List (Call ν ε)) : JoinClause ν ε :=
  calls.foldl step c

/-- Perform a sequence of invocations on a default constructed clause. -/
def run (calls : List (Call ν ε)) : JoinClause ν ε :=
  runFrom empty calls

end JoinClause

/-! ## The history of a call sequence, read off the arguments -/

/-- The arguments of a call that adds a key pair (`addKey` or `addASOFKey`). -/
structure KeyCall (ν ε : Type) where
  left_key_node : ν
  left_key_expression : ε
  right_key_node : ν
  right_key_expression : ε
  null_safe_comparison : Bool
  asof_inequality : Option ASOFJoinInequality
deriving DecidableEq

namespace Call

variable {ν ε : Type}

/-- The key pair a call adds, if it is an `addKey` or an `addASOFKey` call.  An
`addASOFKey` call has no null-safe argument and never marks its pair so. -/
def keyCall? : Call ν ε → Option (KeyCall ν ε)
  | .addKey l le r re ns => some ⟨l, le, r, re, ns, none⟩
  | .addASOFKey l le r re ineq => some ⟨l, le, r, re, false, some ineq⟩
  | .addCondition _ _ _ => none
  | .addMixedCondition _ => none

/-- The node a call appends to the left filter list, if any. -/
def leftFilter? : Call ν ε → Option ν
  | .addCondition side n _ => if side = JoinTableSide.Left then some n else none
  | _ => none

/-- The node a call appends to the right filter list, if any. -/
def rightFilter? : Call ν ε → Option ν
  | .addCondition side n _ => if side = JoinTableSide.Left then none else some n
  | _ => none

/-- The node a call appends to the mixed filter list, if any. -/
def mixedFilter? : Call ν ε → Option ν
  | .addMixedCondition n => some n
  | _ => none

/-- The expression a call hands over for the left side: the
`left_key_expression` of a key call, the `expression_node` of an
`addCondition` call for the left side. -/
def leftExpression? : Call ν ε → Option ε
  | .addKey _ le _ _ _ => some le
  | .addASOFKey _ le _ _ _ => some le
  | .addCondition side _ e => if side = JoinTableSide.Left then some e else none
  | .addMixedCondition _ => none

/-- The expression a call hands over for the right side. -/
def rightExpression? : Call ν ε → Option ε
  | .addKey _ _ _ re _ => some re
  | .addASOFKey _ _ _ re _ => some re
  | .addCondition side _ e => if side = JoinTableSide.Left then none else some e
  | .addMixedCondition _ => none

end Call

/-- The key pairs added by a call sequence, in call order. -/
def keyCalls {ν ε : Type} (calls : List (Call ν ε)) : List (KeyCall ν ε) :=
  calls.filterMap Call.keyCall?

/-- Whether the call is an `addKey` call. -/
def Call.isAddKey {ν ε : Type} : Call ν ε → Bool
  | .addKey _ _ _ _ _ => true
  | _ => false

/-- Whether the call is an `addASOFKey` call. -/
def Call.isAddASOFKey {ν ε : Type} : Call ν ε → Bool
  | .addASOFKey _ _ _ _ _ => true
  | _ => false

/-- The ASOF conditions a call sequence records when the clause already holds
`i` key pairs: each `addASOFKey` call records the index of the pair it adds. -/
def asofTrace {ν ε : Type} : Nat → List (Call ν ε) → List ASOFCondition
  | _, [] => []
  | i, .addKey _ _ _ _ _ :: cs => asofTrace (i + 1) cs
  | i, .addASOFKey _ _ _ _ q :: cs => ⟨i, q⟩ :: asofTrace (i + 1) cs
  | i, .addCondition _ _ _ :: cs => asofTrace i cs
  | i, .addMixedCondition _ :: cs => asofTrace i cs

/-- The left key expressions are aligned with the left key nodes: both lists
have one entry per key call, and the `i`-th entries are the node and the
expression of the `i`-th key call. -/
def leftKeyExpressionsAligned {ν ε : Type} (calls : List (Call ν ε)) : Prop :=
  (JoinClause.run calls).getLeftKeyExpressionNodes.length
      = (JoinClause.run calls).getLeftKeyNodes.length ∧
    ∀ (i : Nat) (k : KeyCall ν ε), (keyCalls calls)[i]? = some k →
      (JoinClause.run calls).getLeftKeyNodes[i]? = some k.left_key_node ∧
      (JoinClause.run calls).getLeftKeyExpressionNodes[i]? = some k.left_key_expression

/-- The right key expressions are aligned with the right key nodes. -/
def rightKeyExpressionsAligned {ν ε : Type} (calls : List (Call ν ε)) : Prop :=
  (JoinClause.run calls).getRightKeyExpressionNodes.length
      = (JoinClause.run calls).getRightKeyNodes.length ∧
    ∀ (i : Nat) (k : KeyCall ν ε), (keyCalls calls)[i]? = some k →
      (JoinClause.run calls).getRightKeyNodes[i]? = some k.right_key_node ∧
      (JoinClause.run calls).getRightKeyExpressionNodes[i]? = some k.right_key_expression

/-! ## Condition trees, side classification and constant folding

`PlannerJoins.h` only declares `buildJoinClausesAndActions` and
`tryExtractConstantFromJoinNode`; their bodies (`PlannerJoins.cpp`) and the
types they work on (`ActionsDAG`, the query tree) are not part of the sources
at hand.  The definitions of this section follow the written specification of
the clause builder; they drive the `JoinClause` operations embedded above. -/

/-- Modelled from the spec: the join kind handed to the clause builder
("inner/left/right/full/asof"); its declaration (`Core/Joins.h`) is not part of
the sources at hand. -/
inductive JoinKind where
  | Inner
  | Left
  | Right
  | Full
  | Asof
deriving DecidableEq

/-- Modelled from the spec: range ("ASOF") conditions are only recorded when
the join kind supports range joins, which is the ASOF join. -/
def JoinKind.supportsRangeJoins : JoinKind → Bool
  | .Asof => true
  | _ => false

/-- Modelled from the spec: the function symbols of a condition tree that the
clause builder tells apart (conjunction, disjunction, equality, null-safe
equality, the four inequalities), and two further symbols standing for any
other function (`notEquals` as in `1 != 1`, `plus` as in `t1.a + t2.b`). -/
inductive FunctionName where
  | and
  | or
  | equals
  | nullSafeEquals
  | notEquals
  | less
  | lessOrEquals
  | greater
  | greaterOrEquals
  | plus
deriving DecidableEq

/-- Modelled from the spec: an expression node is a column reference, a
constant, or a function application; its identity is its structural value, so
a node of the deduplicated expression DAG and the expression tree it was built
from are the same value.  A column reference carries the input stream it
belongs to.  Functions are binary; an n-ary conjunction or disjunction is a
nest of binary ones. -/
inductive ExpressionNode where
  | column (side : JoinTableSide) (name : String)
  | constant (value : Int)
  | func (name : FunctionName) (lhs rhs : ExpressionNode)
deriving DecidableEq

/-- Modelled from the spec: the result of the side classifier,
`{LeftOnly, RightOnly, Both, Constant}`. -/
inductive ExpressionSide where
  | LeftOnly
  | RightOnly
  | Both
  | Constant
deriving DecidableEq

/-- Modelled from the spec: the side of a function application from the sides
of its two arguments: constants add no column, one side stays that side, two
different sides give `Both`. -/
def ExpressionSide.combine : ExpressionSide → ExpressionSide → ExpressionSide
  | .Constant, s => s
  | s, .Constant => s
  | .LeftOnly, .LeftOnly => .LeftOnly
  | .RightOnly, .RightOnly => .RightOnly
  | _, _ => .Both

/-- Modelled from the spec: `classify(node)`.  A node is `LeftOnly` /
`RightOnly` iff every column reference reachable from it belongs to that side,
`Both` iff the reachable column references come from both sides, `Constant`
iff it contains no column reference. -/
def classify : ExpressionNode → ExpressionSide
  | .column JoinTableSide.Left _ => .LeftOnly
  | .column JoinTableSide.Right _ => .RightOnly
  | .constant _ => .Constant
  | .func _ lhs rhs => (classify lhs).combine (classify rhs)

/-- Whether the expression contains a column reference. -/
def ExpressionNode.referencesColumn : ExpressionNode → Bool
  | .column _ _ => true
  | .constant _ => false
  | .func _ lhs rhs => lhs.referencesColumn || rhs.referencesColumn

/-- The integer a boolean result is represented by. -/
def boolValue (b : Bool) : Int := if b then 1 else 0

/-- The truth value of a number: everything but zero is true. -/
def isTrueValue (v : Int) : Bool := decide (v ≠ 0)

/-- Modelled from the spec: the value of a function applied to two literal
values. -/
def FunctionName.evaluate : FunctionName → Int → Int → Int
  | .and, a, b => boolValue (isTrueValue a && isTrueValue b)
  | .or, a, b => boolValue (isTrueValue a || isTrueValue b)
  | .equals, a, b => boolValue (decide (a = b))
  | .nullSafeEquals, a, b => boolValue (decide (a = b))
  | .notEquals, a, b => boolValue (decide (a ≠ b))
  | .less, a, b => boolValue (decide (a < b))
  | .lessOrEquals, a, b => boolValue (decide (a ≤ b))
  | .greater, a, b => boolValue (decide (a > b))
  | .greaterOrEquals, a, b => boolValue (decide (a ≥ b))
  | .plus, a, b => a + b

/-- Modelled from the spec: compile-time folding of an expression all of whose
leaves are constants; `none` as soon as a column is referenced. -/
def foldConstant : ExpressionNode → Option Int
  | .column _ _ => none
  | .constant value => some value
  | .func name lhs rhs =>
    match foldConstant lhs, foldConstant rhs with
    | some a, some b => some (name.evaluate a b)
    | _, _ => none

/-- Modelled from the spec: the body of `tryExtractConstantFromJoinNode` is not
part of the sources at hand.  The constant-fold probe returns the boolean value
of the join condition when the entire condition tree is a compile-time constant
(all leaves constant, no column reference anywhere), and `none` otherwise. -/
def tryExtractConstantFromJoinNode (join_expression : ExpressionNode) : Option Bool :=
  (foldConstant join_expression).map isTrueValue

/-- A condition built only from literal-true terms combined by AND / OR. -/
def ExpressionNode.isLiteralTrueCombination : ExpressionNode → Bool
  | .constant value => isTrueValue value
  | .func FunctionName.and lhs rhs =>
    lhs.isLiteralTrueCombination && rhs.isLiteralTrueCombination
  | .func FunctionName.or lhs rhs =>
    lhs.isLiteralTrueCombination && rhs.isLiteralTrueCombination
  | _ => false

/-! ## The clause builder -/

/-- Modelled from the spec: the error kinds of join analysis. -/
inductive AnalysisError where
  | UnsupportedClauseShape
  | AmbiguousKeyExpression
  | UnclassifiableCondition
deriving DecidableEq

/-- Modelled from the spec: top-level splitting.  The condition is decomposed
along its outermost disjunction, each disjunct becoming one clause; a condition
with no top-level disjunction yields exactly one. -/
def splitDisjunction : ExpressionNode → List ExpressionNode
  | .func FunctionName.or lhs rhs => splitDisjunction lhs ++ splitDisjunction rhs
  | e => [e]

/-- Whether the root of the expression is a conjunction. -/
def ExpressionNode.isConjunction : ExpressionNode → Bool
  | .func FunctionName.and _ _ => true
  | _ => false

/-- Modelled from the spec: within a clause the conjunction is flattened into
the list of its conjuncts, nested conjunctions being flattened recursively. -/
def flattenConjunction : ExpressionNode → List ExpressionNode
  | .func FunctionName.and lhs rhs => flattenConjunction lhs ++ flattenConjunction rhs
  | e => [e]

/-- Whether the function is an equality comparison (plain or null-safe). -/
def FunctionName.isEquality : FunctionName → Bool
  | .equals => true
  | .nullSafeEquals => true
  | _ => false

/-- Whether the function is the null-safe equality. -/
def FunctionName.isNullSafeEquality : FunctionName → Bool
  | .nullSafeEquals => true
  | _ => false

/-- The ASOF inequality of a strict or non-strict inequality comparison. -/
def FunctionName.asofInequality? : FunctionName → Option ASOFJoinInequality
  | .less => some .Less
  | .lessOrEquals => some .LessOrEquals
  | .greater => some .Greater
  | .greaterOrEquals => some .GreaterOrEquals
  | _ => none

/-- The inequality read with its operands exchanged: `r < l` is `l > r`. -/
def ASOFJoinInequality.reverse : ASOFJoinInequality → ASOFJoinInequality
  | .Less => .Greater
  | .LessOrEquals => .GreaterOrEquals
  | .Greater => .Less
  | .GreaterOrEquals => .LessOrEquals

/-- A comparison whose one operand is `LeftOnly` and whose other operand is
`RightOnly`, with the left operand first. -/
inductive SplitComparison where
  | key (left_operand right_operand : ExpressionNode) (null_safe : Bool)
  | asof (left_operand right_operand : ExpressionNode) (inequality : ASOFJoinInequality)
deriving DecidableEq

/-- The comparison `name(left_operand, right_operand)` between a `LeftOnly` and
a `RightOnly` operand: an equality is a key pair (null-safe for the null-safe
equality), an inequality is an ASOF condition when the join kind supports range
joins. -/
def splitComparisonOf (join_kind : JoinKind) (name : FunctionName)
    (left_operand right_operand : ExpressionNode)
    (reversed : Bool) : Option SplitComparison :=
  if name.isEquality then
    some (.key left_operand right_operand name.isNullSafeEquality)
  else
    match name.asofInequality? with
    | some inequality =>
      if join_kind.supportsRangeJoins then
        some (.asof left_operand right_operand
          (if reversed then inequality.reverse else inequality))
      else none
    | none => none

/-- Modelled from the spec: step 3 of the clause builder, first two cases.  A
conjunct is inspected through its two operands: an equality comparison with one
operand `LeftOnly` and the other `RightOnly` is a key pair; an inequality
comparison with the same operand split is an ASOF condition when the join kind
supports range joins.  Every other conjunct is no such comparison. -/
def splitComparison? (join_kind : JoinKind) : ExpressionNode → Option SplitComparison
  | .func name lhs rhs =>
    match classify lhs, classify rhs with
    | .LeftOnly, .RightOnly => splitComparisonOf join_kind name lhs rhs false
    | .RightOnly, .LeftOnly => splitComparisonOf join_kind name rhs lhs true
    | _, _ => none
  | _ => none

/-- Whether the conjunct is eligible as an ASOF condition for the join kind. -/
def isASOFEligible (join_kind : JoinKind) (e : ExpressionNode) : Bool :=
  match splitComparison? join_kind e with
  | some (.asof _ _ _) => true
  | _ => false

/-- Modelled from the spec: the local builder value of one clause: the clause
under construction, and whether a conjunct folded to false, which makes the
whole clause unsatisfiable. -/
structure ClauseBuilder where
  clause : JoinClause ExpressionNode ExpressionNode
  unsatisfiable : Bool
deriving DecidableEq

/-- The builder of a clause no conjunct of which has been seen. -/
def ClauseBuilder.initial : ClauseBuilder :=
  { clause := JoinClause.empty, unsatisfiable := false }

/-- Modelled from the spec: step 3 and step 4 of the clause builder for one
conjunct.  A key pair is added with `addKey`; an ASOF condition is added with
`addASOFKey`, unless the clause already has one, which is an analysis error; a
`LeftOnly` / `RightOnly` predicate is appended to the left / right filters, a
`Both` predicate to the mixed filters; a `Constant` predicate is folded: true
contributes nothing, false makes the clause unsatisfiable. -/
def addConjunct (join_kind : JoinKind) (b : ClauseBuilder) (e : ExpressionNode) :
    Except AnalysisError ClauseBuilder :=
  match splitComparison? join_kind e with
  | some (.key left_operand right_operand null_safe) =>
    .ok { b with clause :=
      b.clause.addKey left_operand left_operand right_operand right_operand null_safe }
  | some (.asof left_operand right_operand inequality) =>
    if b.clause.hasASOF then .error .UnsupportedClauseShape
    else .ok { b with clause :=
      b.clause.addASOFKey left_operand left_operand right_operand right_operand inequality }
  | none =>
    match classify e with
    | .LeftOnly => .ok { b with clause := b.clause.addCondition JoinTableSide.Left e e }
    | .RightOnly => .ok { b with clause := b.clause.addCondition JoinTableSide.Right e e }
    | .Both => .ok { b with clause := b.clause.addMixedCondition e }
    | .Constant =>
      if tryExtractConstantFromJoinNode e = some false then .ok { b with unsatisfiable := true }
      else .ok b

/-- Modelled from the spec: the conjunct walk of one clause, first conjunct
first; the first error aborts it. -/
def addConjuncts (join_kind : JoinKind) :
    ClauseBuilder → List ExpressionNode → Except AnalysisError ClauseBuilder
  | b, [] => .ok b
  | b, e :: es =>
    match addConjunct join_kind b e with
    | .error err => .error err
    | .ok b1 => addConjuncts join_kind b1 es

/-- Modelled from the spec: one clause is built from one disjunct by flattening
it and walking its conjuncts. -/
def buildJoinClause (join_kind : JoinKind) (disjunct : ExpressionNode) :
    Except AnalysisError ClauseBuilder :=
  addConjuncts join_kind ClauseBuilder.initial (flattenConjunction disjunct)

/-- Modelled from the spec: the clauses of all disjuncts, in order; the first
error aborts the analysis. -/
def buildJoinClauses (join_kind : JoinKind) :
    List ExpressionNode → Except AnalysisError (List ClauseBuilder)
  | [] => .ok []
  | d :: ds =>
    match buildJoinClause join_kind d with
    | .error err => .error err
    | .ok b =>
      match buildJoinClauses join_kind ds with
      | .error err => .error err
      | .ok bs => .ok (b :: bs)

/-- Modelled from the spec: an unsatisfiable clause is dropped, with at least
one clause always surviving: when every clause is unsatisfiable the first one
is kept.  The decomposition reproduces the truth value of the condition for
every accepted condition, so the clause that is kept this way must still match
no row pair: it is kept with the literal falsehood as a filter. -/
def survivingClauses (bs : List ClauseBuilder) :
    List (JoinClause ExpressionNode ExpressionNode) :=
  match bs.filter (fun b => !b.unsatisfiable) with
  | [] => (bs.take 1).map
      (fun b => b.clause.addCondition JoinTableSide.Left (.constant 0) (.constant 0))
  | kept => kept.map (·.clause)

/-- Modelled from the spec: the type `ActionsDAG` (`Interpreters/ActionsDAG.h`)
is not part of the sources at hand.  An expression DAG is given by the nodes it
outputs; structurally identical nodes are one node, so the outputs hold no
value twice. -/
structure ActionsDAG where
  outputs : List ExpressionNode
deriving DecidableEq

/-- The `struct JoinClausesAndActions` of the header. -/
structure JoinClausesAndActions where
  join_clauses : List (JoinClause ExpressionNode ExpressionNode)
  left_join_tmp_expression_actions : ActionsDAG
  right_join_tmp_expression_actions : ActionsDAG
  left_join_expressions_actions : ActionsDAG
  right_join_expressions_actions : ActionsDAG
  mixed_join_expressions_actions : Option ActionsDAG
deriving DecidableEq

/-- Modelled from the spec: the action projector (part of the body of
`buildJoinClausesAndActions`, not in the sources at hand).  The left actions
compute every left key node and left filter of the clauses, the right actions
every right key node and right filter, identical nodes being shared; the
original actions retain the condition as written; the mixed actions are present
if and only if some clause has a mixed filter, and compute the mixed
filters. -/
def projectActions (join_expression : ExpressionNode)
    (clauses : List (JoinClause ExpressionNode ExpressionNode)) : JoinClausesAndActions :=
  { join_clauses := clauses
    left_join_tmp_expression_actions := { outputs := [join_expression] }
    right_join_tmp_expression_actions := { outputs := [join_expression] }
    left_join_expressions_actions :=
      { outputs := (clauses.flatMap fun c =>
          c.getLeftKeyNodes ++ c.getLeftFilterConditionNodes).eraseDups }
    right_join_expressions_actions :=
      { outputs := (clauses.flatMap fun c =>
          c.getRightKeyNodes ++ c.getRightFilterConditionNodes).eraseDups }
    mixed_join_expressions_actions :=
      if clauses.any (fun c => !c.getMixedFilterConditionNodes.isEmpty) then
        some { outputs := (clauses.flatMap fun c => c.getMixedFilterConditionNodes).eraseDups }
      else none }

/-- Modelled from the spec: the body of `buildJoinClausesAndActions`
(`PlannerJoins.cpp`) is not part of the sources at hand.  The condition is
split along its outermost disjunction, one clause is built per disjunct, an
ASOF join with more than one clause is rejected, unsatisfiable clauses are
dropped, and the actions are projected. -/
def buildJoinClausesAndActions (join_expression : ExpressionNode) (join_kind : JoinKind) :
    Except AnalysisError JoinClausesAndActions :=
  match buildJoinClauses join_kind (splitDisjunction join_expression) with
  | .error err => .error err
  | .ok builders =>
    if join_kind.supportsRangeJoins && decide (1 < builders.length) then
      .error .UnsupportedClauseShape
    else
      .ok (projectActions join_expression (survivingClauses builders))

/-- The clause of `L = R AND P AND Q`: the key pair `(L, R)`, then the left
filter `P`, then the right filter `Q`. -/
def keyWithTwoFilters (L R P Q : ExpressionNode) : JoinClause ExpressionNode ExpressionNode :=
  ((JoinClause.empty.addKey L L R R false).addCondition JoinTableSide.Left P P).addCondition
    JoinTableSide.Right Q Q

/-- The outcome of clause building described for `L = R AND P AND Q`: the
condition is accepted and the bundle has exactly one clause, with exactly one
key pair `(L, R)` (not null-safe, without ASOF condition), exactly one left
filter `P`, exactly one right filter `Q` and no mixed filter. -/
def yieldsKeyAndTwoSideFilters (join_expression : ExpressionNode) (join_kind : JoinKind)
    (L R P Q : ExpressionNode) : Prop :=
  ∃ bundle clause,
    buildJoinClausesAndActions join_expression join_kind = .ok bundle ∧
    bundle.join_clauses = [clause] ∧
    clause.getLeftKeyNodes = [L] ∧ clause.getRightKeyNodes = [R] ∧
    clause.isNullsafeCompareKey 0 = false ∧ clause.getASOFConditions = [] ∧
    clause.getLeftFilterConditionNodes = [P] ∧
    clause.getRightFilterConditionNodes = [Q] ∧
    clause.getMixedFilterConditionNodes = []

/-! ## Evaluation of a condition and of its decomposition (spec-modelled) -/

/-- Modelled from the spec: a concrete row gives every column of its input
stream, by name, its value, or `none` when the column is NULL (the expression
evaluation engine is an external collaborator; values are the integers of the
constant folding above). -/
abbrev Row := String → Option Int

/-- Modelled from the spec: conjunction in three-valued logic: false as soon as
one operand is false, NULL when no operand is false and one is NULL. -/
def kleeneAnd (a b : Option Int) : Option Int :=
  match a, b with
  | some x, some y => some (boolValue (isTrueValue x && isTrueValue y))
  | some x, none => if isTrueValue x then none else some 0
  | none, some y => if isTrueValue y then none else some 0
  | none, none => none

/-- Modelled from the spec: disjunction in three-valued logic: true as soon as
one operand is true, NULL when no operand is true and one is NULL. -/
def kleeneOr (a b : Option Int) : Option Int :=
  match a, b with
  | some x, some y => some (boolValue (isTrueValue x || isTrueValue y))
  | some x, none => if isTrueValue x then some 1 else none
  | none, some y => if isTrueValue y then some 1 else none
  | none, none => none

/-- Modelled from the spec: the value of a function applied to two values that
may be NULL.  The null-safe equality treats NULL = NULL as a match and is never
NULL; conjunction and disjunction follow three-valued logic; every other
function is NULL as soon as an operand is NULL ("the default three-valued-logic
non-match") and has the value of `evaluate` otherwise. -/
def FunctionName.evaluateNullable (name : FunctionName) (a b : Option Int) : Option Int :=
  match name with
  | .and => kleeneAnd a b
  | .or => kleeneOr a b
  | .nullSafeEquals => some (boolValue (decide (a = b)))
  | _ =>
    match a, b with
    | some x, some y => some (name.evaluate x y)
    | _, _ => none

/-- Modelled from the spec: the value of an expression on a concrete (left
row, right row) pair. -/
def ExpressionNode.evaluate (left_row right_row : Row) : ExpressionNode → Option Int
  | .column JoinTableSide.Left name => left_row name
  | .column JoinTableSide.Right name => right_row name
  | .constant value => some value
  | .func name lhs rhs => name.evaluateNullable (lhs.evaluate left_row right_row)
      (rhs.evaluate left_row right_row)

/-- Modelled from the spec: the value of an expression when only some of the
two rows are at hand; the outer `none` says that nothing can be computed,
because a column of a row that is not at hand is referenced. -/
def ExpressionNode.evaluateOn (left_row right_row : Option Row) :
    ExpressionNode → Option (Option Int)
  | .column JoinTableSide.Left name => left_row.map (fun row => row name)
  | .column JoinTableSide.Right name => right_row.map (fun row => row name)
  | .constant value => some (some value)
  | .func name lhs rhs =>
    match lhs.evaluateOn left_row right_row, rhs.evaluateOn left_row right_row with
    | some a, some b => some (name.evaluateNullable a b)
    | _, _ => none

/-- Modelled from the spec: applying an actions DAG to rows computes the value
of each of its output nodes. -/
def ActionsDAG.apply (dag : ActionsDAG) (left_row right_row : Option Row) :
    List (ExpressionNode × Option (Option Int)) :=
  dag.outputs.map (fun node => (node, node.evaluateOn left_row right_row))

/-- Modelled from the spec: the DOM of `DBPoco/DOM` is not part of the sources
at hand.  A node is an element, with its tag name, its attributes and its child
nodes in document order, or a text node with its data. -/
inductive XMLNode where
  | element (nodeName : List Char) (attributes : List (List Char × List Char))
      (childNodes : List XMLNode)
  | text (data : List Char)

/-- An element node, as `DBPoco::XML::Element`. -/
structure Element where
  nodeName : List Char
  attributes : List (List Char × List Char)
  childNodes : List XMLNode

/-- The element seen as a node. -/
def Element.toNode (e : Element) : XMLNode :=
  .element e.nodeName e.attributes e.childNodes

/-- The test `nodeType() == Node::TEXT_NODE`. -/
def XMLNode.isText : XMLNode → Bool
  | .text _ => true
  | .element _ _ _ => false

/-- Modelled from the spec: `Document::createElement` (DOM, not part of the
sources at hand) gives an element of the given tag name without attributes and
without children. -/
def createElement (tagName : List Char) : Element :=
  { nodeName := tagName, attributes := [], childNodes := [] }

/-- Modelled from the spec: `Node::appendChild` (DOM) adds the node at the end
of the child list. -/
def Element.appendChild (e : Element) (child : XMLNode) : Element :=
  { e with childNodes := e.childNodes ++ [child] }

/-- Modelled from the spec: setting an attribute in an attribute list (DOM
`setAttribute`): the value of an attribute of that name is replaced, otherwise
the attribute is added at the end. -/
def setAttributeIn :
    List (List Char × List Char) → List Char → List Char → List (List Char × List Char)
  | [], name, value => [(name, value)]
  | (n, v) :: rest, name, value =>
    if n = name then (n, value) :: rest else (n, v) :: setAttributeIn rest name value

/-- Modelled from the spec: `Element::setAttribute` (DOM). -/
def Element.setAttribute (e : Element) (name value : List Char) : Element :=
  { e with attributes := setAttributeIn e.attributes name value }

/-- The loop over the children of the parent in the `#text` branch: whether
some child is a text node. -/
def Element.hasTextChild (e : Element) : Bool :=
  e.childNodes.any XMLNode.isText

/-- Modelled from the spec: a `YAML::Node` (yaml-cpp is not part of the sources
at hand) by its `Type()`: a scalar with its string value, a sequence with its
items, a map with its key-value pairs in iteration order, null, or undefined.
A map key is given by the outcome of `key_node.as<std::string>()`: the string,
or `none` when the conversion throws `YAML::TypedBadConversion`. -/
inductive YAMLNode where
  | Scalar (value : List Char)
  | Sequence (items : List YAMLNode)
  | Map (entries : List (Option (List Char) × YAMLNode))
  | Null
  | Undefined

/-- The test `IsScalar()`. -/
def YAMLNode.IsScalar : YAMLNode → Bool
  | .Scalar _ => true
  | _ => false

/-- The call `as<std::string>()` on a value that `IsScalar()`: the string of
the scalar. -/
def YAMLNode.asString : YAMLNode → List Char
  | .Scalar value => value
  | _ => []

/-- The test for `Type() == YAML::NodeType::Map`. -/
def YAMLNode.IsMap : YAMLNode → Bool
  | .Map _ => true
  | _ => false

/-- The exceptions that leave `processNode`: the `DB::Exception` with code
`CANNOT_PARSE_YAML`, and the `YAML::TypedBadConversion` of a key that is no
string (which `YAMLParser::parse` turns into `CANNOT_PARSE_YAML`). -/
inductive YAMLError where
  | CANNOT_PARSE_YAML
  | TypedBadConversion
deriving DecidableEq

/-- The constant `YAML_ATTRIBUTE_PREFIX`. -/
def YAML_ATTRIBUTE_PREFIX : Char := '@'

/-- The call `key.starts_with(c)` for a character `c`. -/
def startsWith : List Char → Char → Bool
  | [], _ => false
  | first :: _, c => decide (first = c)

/-- The call `key.substr(1)`, for a key that is not empty. -/
def substr1 (key : List Char) : List Char :=
  key.drop 1

mutual

/-- The function `processNode`.  The result is the parent element as changed
and the clones of it that were appended to its own parent. -/
def processNode : YAMLNode → Element → Except YAMLError (Element × List Element)
  | .Scalar value, parent_xml_node => .ok (parent_xml_node.appendChild (.text value), [])
  | .Sequence items, parent_xml_node => processSequence items 0 parent_xml_node
  | .Map entries, parent_xml_node =>
    match processMap entries parent_xml_node with
    | .error err => .error err
    | .ok parent => .ok (parent, [])
  | .Null, parent_xml_node => .ok (parent_xml_node, [])
  | .Undefined, _ => .error .CANNOT_PARSE_YAML

/-- The loop of the `Sequence` case, from item `i` on: item `0` is processed
into the parent itself, every further item into a clone of the parent, which
`cloneXMLNode` creates with the tag name of the parent and appends to the
parent of the parent. -/
def processSequence :
    List YAMLNode → Nat → Element → Except YAMLError (Element × List Element)
  | [], _, parent_xml_node => .ok (parent_xml_node, [])
  | child_node :: rest, i, parent_xml_node =>
    if 0 < i then
      match processNode child_node (createElement parent_xml_node.nodeName) with
      | .error err => .error err
      | .ok (clone_node, clones) =>
        match processSequence rest (i + 1) parent_xml_node with
        | .error err => .error err
        | .ok (parent, later) => .ok (parent, clone_node :: clones ++ later)
    else
      match processNode child_node parent_xml_node with
      | .error err => .error err
      | .ok (parent1, clones) =>
        match processSequence rest (i + 1) parent1 with
        | .error err => .error err
        | .ok (parent, later) => .ok (parent, clones ++ later)

/-- The loop of the `Map` case over the key-value pairs that remain.  For each
pair: a key with the attribute prefix and a scalar value set an attribute; the
key `#text` with a scalar value appends a text node, unless the parent already
has one, which is an error; every other pair appends a new element named by the
key and processes the value into it. -/
def processMap :
    List (Option (List Char) × YAMLNode) → Element → Except YAMLError Element
  | [], parent_xml_node => .ok parent_xml_node
  | (none, _) :: _, _ => .error .TypedBadConversion
  | (some key, value_node) :: rest, parent_xml_node =>
    if startsWith key YAML_ATTRIBUTE_PREFIX && value_node.IsScalar then
      processMap rest (parent_xml_node.setAttribute (substr1 key) value_node.asString)
    else if decide (key = "#text".toList) && value_node.IsScalar then
      if parent_xml_node.hasTextChild then .error .CANNOT_PARSE_YAML
      else processMap rest (parent_xml_node.appendChild (.text value_node.asString))
    else
      match processNode value_node (createElement key) with
      | .error err => .error err
      | .ok (xml_key, clones) =>
        processMap rest
          { parent_xml_node with
            childNodes :=
              parent_xml_node.childNodes ++ xml_key.toNode :: clones.map Element.toNode }

end

/-- The effect of one key-value pair of a map on the parent element: the loop
of the `Map` case run on that pair alone. -/
def processMapEntry (key : Option (List Char)) (value_node : YAMLNode)
    (parent_xml_node : Element) : Except YAMLError Element :=
  processMap [(key, value_node)] parent_xml_node

/-- The elements that hold the conversions of the items of a sequence under the
key `key`: each item is processed into a new element named `key`. -/
def convertedItems (key : List Char) : List YAMLNode → Except YAMLError (List Element)
  | [] => .ok []
  | item :: rest =>
    match processNode item (createElement key) with
    | .error err => .error err
    | .ok (item_element, _) =>
      match convertedItems key rest with
      | .error err => .error err
      | .ok elements => .ok (item_element :: elements)

/-- Modelled from the spec: reading an attribute in an attribute list (DOM
`getAttribute`): the value of the first attribute of that name. -/
def getAttributeIn : List (List Char × List Char) → List Char → Option (List Char)
  | [], _ => none
  | (n, v) :: rest, name => if n = name then some v else getAttributeIn rest name

end DB

namespace DBPoco.Data

/-! ## Large objects (DBPoco/Data/LOB.h)

A `LOB<T>` holds a `SharedPtr` to a `std::vector<T>`; copies of a LOB share the
vector.  The embedding keeps the vectors in an explicit store, addressed by
natural numbers, and a LOB is the address its `_pContent` points to.  Reference
counts are not modelled: a vector that is no longer referenced stays in the
store, where nothing can observe it. -/

/-- The vectors allocated so far; the address of a vector is its position. -/
structure Storage (T : Type) where
  cells : List (List T)
deriving DecidableEq

namespace Storage

variable {T : Type}

/-- The vector at an address (empty for an address never allocated). -/
def get (s : Storage T) (address : Nat) : List T :=
  s.cells.getD address []

/-- Replace the vector at an address. -/
def set (s : Storage T) (address : Nat) (v : List T) : Storage T :=
  { cells := s.cells.set address v }

/-- Allocate a new vector (`new std::vector<T>(..)`); returns the store and the
address of the new vector. -/
def alloc (s : Storage T) (v : List T) : Storage T × Nat :=
  ({ cells := s.cells ++ [v] }, s.cells.length)

end Storage

/-- The data member of `class LOB`: the address `_pContent` points to. -/
structure LOB where
  _pContent : Nat
deriving DecidableEq

/-- A `const T *` into the content of a LOB: the vector it points into and the
position of the element it points at. -/
structure RawPointer where
  address : Nat
  position : Nat
deriving DecidableEq

/-- The element a raw pointer points at. -/
def RawPointer.deref {T : Type} (s : Storage T) (p : RawPointer) : Option T :=
  (s.get p.address)[p.position]?

/-- The comparison `std::vector::operator==`: same size and equal elements at
every position. -/
def vectorEq {T : Type} [DecidableEq T] : List T → List T → Bool
  | [], [] => true
  | a :: as, b :: bs => decide (a = b) && vectorEq as bs
  | _, _ => false

/-- The comparison `std::vector::operator!=`, the negation of `operator==`. -/
def vectorNe {T : Type} [DecidableEq T] (a b : List T) : Bool :=
  !vectorEq a b

namespace LOB

variable {T : Type}

/-- The constructor `LOB()`: creates an empty LOB. -/
def create (s : Storage T) : Storage T × LOB :=
  let r := s.alloc []
  (r.1, { _pContent := r.2 })

/-- The constructor `LOB(const std::vector<T> & content)`: a new vector that is
a copy of `content`. -/
def fromVector (s : Storage T) (content : List T) : Storage T × LOB :=
  let r := s.alloc content
  (r.1, { _pContent := r.2 })

/-- The constructor `LOB(const T * pContent, std::size_t size)`: a new vector
holding the `size` elements found at `pContent`.  The memory at `pContent` is
given by the list of the elements stored there. -/
def fromRaw (s : Storage T) (pContent : List T) (size : Nat) : Storage T × LOB :=
  let r := s.alloc (pContent.take size)
  (r.1, { _pContent := r.2 })

/-- The constructor `LOB(const std::basic_string<T> & content)`: a new vector
holding the characters of the string. -/
def fromString (s : Storage T) (content : List T) : Storage T × LOB :=
  let r := s.alloc content
  (r.1, { _pContent := r.2 })

/-- The copy constructor `LOB(const LOB & other)`: the copy shares the vector
of `other`. -/
def copy (other : LOB) : LOB :=
  { _pContent := other._pContent }

/-- The member function `LOB::swap`: the two LOBs exchange their vectors. -/
def swap (self other : LOB) : LOB × LOB :=
  ({ _pContent := other._pContent }, { _pContent := self._pContent })

/-- The member function `LOB::content`. -/
def content (s : Storage T) (self : LOB) : List T :=
  s.get self._pContent

/-- The member function `LOB::size`. -/
def size (s : Storage T) (self : LOB) : Nat :=
  (s.get self._pContent).length

/-- The member function `LOB::operator==`. -/
def operatorEq [DecidableEq T] (s : Storage T) (self other : LOB) : Bool :=
  vectorEq (s.get self._pContent) (s.get other._pContent)

/-- The member function `LOB::operator!=`. -/
def operatorNe [DecidableEq T] (s : Storage T) (self other : LOB) : Bool :=
  vectorNe (s.get self._pContent) (s.get other._pContent)

/-- The member function `LOB::rawContent`: `none` is the null pointer. -/
def rawContent (s : Storage T) (self : LOB) : Option RawPointer :=
  if (s.get self._pContent).isEmpty then none
  else some { address := self._pContent, position := 0 }

/-- The member function `LOB::assignVal`: the LOB gets a new vector of `count`
copies of `val`. -/
def assignVal (s : Storage T) (_self : LOB) (count : Nat) (val : T) : Storage T × LOB :=
  let r := s.alloc (List.replicate count val)
  (r.1, { _pContent := r.2 })

/-- The member function `LOB::assignRaw`: a temporary LOB is constructed from
the buffer and swapped with this one (the debug assertion on `ptr` is a no-op
for the non-null buffers considered). -/
def assignRaw (s : Storage T) (self : LOB) (ptr : List T) (count : Nat) : Storage T × LOB :=
  let r := fromRaw s ptr count
  (r.1, (swap self r.2).1)

/-- The member function `LOB::appendRaw`: the `count` elements at `pChar` are
inserted at the end of the vector of this LOB. -/
def appendRaw (s : Storage T) (self : LOB) (pChar : List T) (count : Nat) : Storage T :=
  s.set self._pContent (s.get self._pContent ++ pChar.take count)

/-- The member function `LOB::clear` (capacity is not modelled, so compaction
changes nothing). -/
def clear (s : Storage T) (self : LOB) : Storage T :=
  s.set self._pContent []

end LOB

end DBPoco.Data

namespace DB

/-! ## Properties of the clause bookkeeping -/

namespace JoinClause

variable {ν ε : Type}

theorem runFrom_nil (c : JoinClause ν ε) : runFrom c [] = c := rfl

theorem runFrom_cons (c : JoinClause ν ε) (x : Call ν ε) (xs : List (Call ν ε)) :
    runFrom c (x :: xs) = runFrom (step c x) xs := rfl

theorem runFrom_append (c : JoinClause ν ε) (xs ys : List (Call ν ε)) :
    runFrom c (xs ++ ys) = runFrom (runFrom c xs) ys := by
  simp [runFrom, List.foldl_append]

theorem runFrom_left_key_nodes (calls : List (Call ν ε)) :
    ∀ c : JoinClause ν ε, (runFrom c calls).left_key_nodes
      = c.left_key_nodes ++ (keyCalls calls).map (·.left_key_node) := by
  induction calls with
  | nil => intro c; simp [runFrom, keyCalls]
  | cons x xs ih =>
    intro c
    rw [runFrom_cons, ih]
    cases x with
    | addCondition side n e => cases side <;> simp [step, addCondition, keyCalls, Call.keyCall?]
    | _ => simp [step, addKey, addASOFKey, addMixedCondition, keyCalls, Call.keyCall?]

theorem runFrom_right_key_nodes (calls : List (Call ν ε)) :
    ∀ c : JoinClause ν ε, (runFrom c calls).right_key_nodes
      = c.right_key_nodes ++ (keyCalls calls).map (·.right_key_node) := by
  induction calls with
  | nil => intro c; simp [runFrom, keyCalls]
  | cons x xs ih =>
    intro c
    rw [runFrom_cons, ih]
    cases x with
    | addCondition side n e => cases side <;> simp [step, addCondition, keyCalls, Call.keyCall?]
    | _ => simp [step, addKey, addASOFKey, addMixedCondition, keyCalls, Call.keyCall?]

theorem runFrom_left_key_expression_nodes (calls : List (Call ν ε)) :
    ∀ c : JoinClause ν ε, (runFrom c calls).left_key_expression_nodes
      = c.left_key_expression_nodes ++ calls.filterMap Call.leftExpression? := by
  induction calls with
  | nil => intro c; simp [runFrom]
  | cons x xs ih =>
    intro c
    rw [runFrom_cons, ih]
    cases x with
    | addCondition side n e =>
      cases side <;> simp [step, addCondition, Call.leftExpression?, List.filterMap_cons]
    | _ => simp [step, addKey, addASOFKey, addMixedCondition, Call.leftExpression?,
        List.filterMap_cons]

theorem runFrom_right_key_expression_nodes (calls : List (Call ν ε)) :
    ∀ c : JoinClause ν ε, (runFrom c calls).right_key_expression_nodes
      = c.right_key_expression_nodes ++ calls.filterMap Call.rightExpression? := by
  induction calls with
  | nil => intro c; simp [runFrom]
  | cons x xs ih =>
    intro c
    rw [runFrom_cons, ih]
    cases x with
    | addCondition side n e =>
      cases side <;> simp [step, addCondition, Call.rightExpression?, List.filterMap_cons]
    | _ => simp [step, addKey, addASOFKey, addMixedCondition, Call.rightExpression?,
        List.filterMap_cons]

theorem runFrom_left_filter_condition_nodes (calls : List (Call ν ε)) :
    ∀ c : JoinClause ν ε, (runFrom c calls).left_filter_condition_nodes
      = c.left_filter_condition_nodes ++ calls.filterMap Call.leftFilter? := by
  induction calls with
  | nil => intro c; simp [runFrom]
  | cons x xs ih =>
    intro c
    rw [runFrom_cons, ih]
    cases x with
    | addCondition side n e =>
      cases side <;> simp [step, addCondition, Call.leftFilter?, List.filterMap_cons]
    | _ => simp [step, addKey, addASOFKey, addMixedCondition, Call.leftFilter?,
        List.filterMap_cons]

theorem runFrom_right_filter_condition_nodes (calls : List (Call ν ε)) :
    ∀ c : JoinClause ν ε, (runFrom c calls).right_filter_condition_nodes
      = c.right_filter_condition_nodes ++ calls.filterMap Call.rightFilter? := by
  induction calls with
  | nil => intro c; simp [runFrom]
  | cons x xs ih =>
    intro c
    rw [runFrom_cons, ih]
    cases x with
    | addCondition side n e =>
      cases side <;> simp [step, addCondition, Call.rightFilter?, List.filterMap_cons]
    | _ => simp [step, addKey, addASOFKey, addMixedCondition, Call.rightFilter?,
        List.filterMap_cons]

theorem runFrom_mixed_filter_condition_nodes (calls : List (Call ν ε)) :
    ∀ c : JoinClause ν ε, (runFrom c calls).mixed_filter_condition_nodes
      = c.mixed_filter_condition_nodes ++ calls.filterMap Call.mixedFilter? := by
  induction calls with
  | nil => intro c; simp [runFrom]
  | cons x xs ih =>
    intro c
    rw [runFrom_cons, ih]
    cases x with
    | addCondition side n e =>
      cases side <;> simp [step, addCondition, Call.mixedFilter?, List.filterMap_cons]
    | _ => simp [step, addKey, addASOFKey, addMixedCondition, Call.mixedFilter?,
        List.filterMap_cons]

theorem run_append_singleton (calls : List (Call ν ε)) (x : Call ν ε) :
    run (calls ++ [x]) = step (run calls) x := by
  simp [run, runFrom, List.foldl_append]

theorem run_left_key_nodes_length (calls : List (Call ν ε)) :
    (run calls).left_key_nodes.length = (keyCalls calls).length := by
  simp [run, runFrom_left_key_nodes, empty]

theorem mem_unorderedSetEmplace (s : List Nat) (idx i : Nat) :
    i ∈ unorderedSetEmplace s idx ↔ i ∈ s ∨ i = idx := by
  unfold unorderedSetEmplace
  split
  · constructor
    · intro h; exact Or.inl h
    · rintro (h | h)
      · exact h
      · subst h; assumption
  · simp

theorem keyCalls_append (xs ys : List (Call ν ε)) :
    keyCalls (xs ++ ys) = keyCalls xs ++ keyCalls ys := by
  simp [keyCalls, List.filterMap_append]

theorem exists_getElem?_append_singleton {α : Type} (ks : List α) (k0 : α) (i : Nat)
    (P : α → Prop) :
    (∃ k, (ks ++ [k0])[i]? = some k ∧ P k) ↔
      (∃ k, ks[i]? = some k ∧ P k) ∨ (i = ks.length ∧ P k0) := by
  constructor
  · rintro ⟨k, hk, hp⟩
    by_cases hi : i < ks.length
    · rw [List.getElem?_append_left hi] at hk
      exact Or.inl ⟨k, hk, hp⟩
    · rw [List.getElem?_append_right (Nat.le_of_not_lt hi)] at hk
      cases hj : i - ks.length with
      | zero =>
        rw [hj] at hk
        simp at hk
        subst hk
        exact Or.inr ⟨by omega, hp⟩
      | succ j => rw [hj] at hk; simp at hk
  · rintro (⟨k, hk, hp⟩ | ⟨hi, hp⟩)
    · refine ⟨k, ?_, hp⟩
      rw [List.getElem?_append_left (List.getElem?_eq_some.mp hk).1]
      exact hk
    · refine ⟨k0, ?_, hp⟩
      subst hi
      rw [List.getElem?_append_right (Nat.le_refl _)]
      simp

theorem run_nullsafe_iff (calls : List (Call ν ε)) :
    ∀ i : Nat, i ∈ (run calls).nullsafe_compare_key_indexes ↔
      ∃ k, (keyCalls calls)[i]? = some k ∧ (k.asof_inequality = none ∧
        k.null_safe_comparison = true) := by
  induction calls using List.reverseRecOn with
  | nil => intro i; simp [run, runFrom, empty, keyCalls]
  | append_singleton xs x ih =>
    intro i
    have hlen := run_left_key_nodes_length xs
    rw [run_append_singleton, keyCalls_append]
    cases x with
    | addKey l le r re ns =>
      have hk1 : keyCalls [Call.addKey l le r re ns] = [⟨l, le, r, re, ns, none⟩] := rfl
      rw [hk1, exists_getElem?_append_singleton, ← ih i]
      cases ns with
      | false => simp [step, addKey]
      | true =>
        simp only [step, addKey, if_true, mem_unorderedSetEmplace, List.length_append,
          List.length_singleton, Nat.add_sub_cancel, hlen]
        simp
    | addASOFKey l le r re q =>
      have hk1 : keyCalls [Call.addASOFKey l le r re q] = [⟨l, le, r, re, false, some q⟩] := rfl
      rw [hk1, exists_getElem?_append_singleton, ← ih i]
      simp [step, addASOFKey]
    | addCondition side n e =>
      have hk1 : keyCalls [Call.addCondition side n e] = [] := rfl
      have : (step (run xs) (Call.addCondition side n e)).nullsafe_compare_key_indexes
          = (run xs).nullsafe_compare_key_indexes := by
        cases side <;> simp [step, addCondition]
      rw [this, ih i, hk1, List.append_nil]
    | addMixedCondition n =>
      have hk1 : keyCalls [Call.addMixedCondition n (ε := ε)] = [] := rfl
      rw [hk1, List.append_nil, ← ih i]
      simp [step, addMixedCondition]

theorem runFrom_asof_conditions (calls : List (Call ν ε)) :
    ∀ c : JoinClause ν ε, (runFrom c calls).asof_conditions
      = c.asof_conditions ++ asofTrace c.left_key_nodes.length calls := by
  induction calls with
  | nil => intro c; simp [runFrom, asofTrace]
  | cons x xs ih =>
    intro c
    rw [runFrom_cons, ih]
    cases x with
    | addCondition side n e => cases side <;> simp [step, addCondition, asofTrace]
    | _ => simp [step, addKey, addASOFKey, addMixedCondition, asofTrace]

theorem asofTrace_lower (calls : List (Call ν ε)) :
    ∀ (i : Nat) (cond : ASOFCondition), cond ∈ asofTrace i calls → i ≤ cond.key_index := by
  induction calls with
  | nil => intro i cond h; simp [asofTrace] at h
  | cons x xs ih =>
    intro i cond h
    cases x with
    | addKey l le r re ns =>
      simp only [asofTrace] at h
      have := ih _ _ h
      omega
    | addASOFKey l le r re q =>
      simp only [asofTrace, List.mem_cons] at h
      rcases h with h | h
      · subst h; exact Nat.le_refl _
      · have := ih _ _ h
        omega
    | addCondition side n e => simp only [asofTrace] at h; exact ih _ _ h
    | addMixedCondition n => simp only [asofTrace] at h; exact ih _ _ h

theorem asofTrace_pairwise (calls : List (Call ν ε)) :
    ∀ i : Nat, List.Pairwise (fun a b : ASOFCondition => a.key_index < b.key_index)
      (asofTrace i calls) := by
  induction calls with
  | nil => intro i; simp [asofTrace]
  | cons x xs ih =>
    intro i
    cases x with
    | addKey l le r re ns => simpa [asofTrace] using ih (i + 1)
    | addASOFKey l le r re q =>
      simp only [asofTrace, List.pairwise_cons]
      refine ⟨?_, ih (i + 1)⟩
      intro b hb
      have := asofTrace_lower xs _ _ hb
      show i < b.key_index
      omega
    | addCondition side n e => simpa [asofTrace] using ih i
    | addMixedCondition n => simpa [asofTrace] using ih i

theorem asofTrace_getElem? (calls : List (Call ν ε)) :
    ∀ (i j : Nat) (cond : ASOFCondition), (asofTrace i calls)[j]? = some cond →
      ∃ l le r re,
        (calls.filter Call.isAddASOFKey)[j]? = some (Call.addASOFKey l le r re cond.asof_inequality)
        ∧ i ≤ cond.key_index
        ∧ (keyCalls calls)[cond.key_index - i]?
            = some ⟨l, le, r, re, false, some cond.asof_inequality⟩ := by
  induction calls with
  | nil => intro i j cond h; simp [asofTrace] at h
  | cons x xs ih =>
    intro i j cond h
    cases x with
    | addKey l le r re ns =>
      simp only [asofTrace] at h
      obtain ⟨l1, le1, r1, re1, h1, h2, h3⟩ := ih _ _ _ h
      refine ⟨l1, le1, r1, re1, ?_, by omega, ?_⟩
      · simpa [List.filter_cons, Call.isAddASOFKey] using h1
      · have : cond.key_index - i = (cond.key_index - (i + 1)) + 1 := by omega
        rw [this]
        simpa [keyCalls, List.filterMap_cons, Call.keyCall?] using h3
    | addASOFKey l le r re q =>
      cases j with
      | zero =>
        simp only [asofTrace, List.getElem?_cons_zero, Option.some.injEq] at h
        subst h
        refine ⟨l, le, r, re, ?_, Nat.le_refl _, ?_⟩
        · simp [List.filter_cons, Call.isAddASOFKey]
        · simp [keyCalls, List.filterMap_cons, Call.keyCall?]
      | succ j =>
        simp only [asofTrace, List.getElem?_cons_succ] at h
        obtain ⟨l1, le1, r1, re1, h1, h2, h3⟩ := ih _ _ _ h
        refine ⟨l1, le1, r1, re1, ?_, by omega, ?_⟩
        · simpa [List.filter_cons, Call.isAddASOFKey] using h1
        · have : cond.key_index - i = (cond.key_index - (i + 1)) + 1 := by omega
          rw [this]
          simpa [keyCalls, List.filterMap_cons, Call.keyCall?] using h3
    | addCondition side n e =>
      simp only [asofTrace] at h
      obtain ⟨l1, le1, r1, re1, h1, h2, h3⟩ := ih _ _ _ h
      refine ⟨l1, le1, r1, re1, ?_, h2, ?_⟩
      · simpa [List.filter_cons, Call.isAddASOFKey] using h1
      · simpa [keyCalls, List.filterMap_cons, Call.keyCall?] using h3
    | addMixedCondition n =>
      simp only [asofTrace] at h
      obtain ⟨l1, le1, r1, re1, h1, h2, h3⟩ := ih _ _ _ h
      refine ⟨l1, le1, r1, re1, ?_, h2, ?_⟩
      · simpa [List.filter_cons, Call.isAddASOFKey] using h1
      · simpa [keyCalls, List.filterMap_cons, Call.keyCall?] using h3

theorem asofTrace_length (calls : List (Call ν ε)) :
    ∀ i : Nat, (asofTrace i calls).length = (calls.filter Call.isAddASOFKey).length := by
  induction calls with
  | nil => intro i; simp [asofTrace]
  | cons x xs ih =>
    intro i
    cases x <;> simp [asofTrace, List.filter_cons, Call.isAddASOFKey, ih]

theorem keyCalls_length (calls : List (Call ν ε)) :
    (keyCalls calls).length = calls.countP Call.isAddKey + calls.countP Call.isAddASOFKey := by
  induction calls with
  | nil => simp [keyCalls]
  | cons x xs ih =>
    simp only [keyCalls] at ih
    cases x <;>
      simp [keyCalls, List.filterMap_cons, Call.keyCall?, Call.isAddKey, Call.isAddASOFKey,
        List.countP_cons, ih] <;> omega

theorem leftExpression_length (calls : List (Call ν ε)) :
    (calls.filterMap Call.leftExpression?).length
      = (keyCalls calls).length + (calls.filterMap Call.leftFilter?).length := by
  induction calls with
  | nil => simp [keyCalls]
  | cons x xs ih =>
    simp only [keyCalls] at ih
    cases x with
    | addCondition side n e =>
      cases side <;>
        simp [keyCalls, List.filterMap_cons, Call.keyCall?, Call.leftExpression?,
          Call.leftFilter?, ih]
      omega
    | addKey l le r re ns =>
      simp [keyCalls, List.filterMap_cons, Call.keyCall?, Call.leftExpression?,
        Call.leftFilter?, ih]
      omega
    | addASOFKey l le r re q =>
      simp [keyCalls, List.filterMap_cons, Call.keyCall?, Call.leftExpression?,
        Call.leftFilter?, ih]
      omega
    | addMixedCondition n =>
      simp [keyCalls, List.filterMap_cons, Call.keyCall?, Call.leftExpression?,
        Call.leftFilter?, ih]

theorem rightExpression_length (calls : List (Call ν ε)) :
    (calls.filterMap Call.rightExpression?).length
      = (keyCalls calls).length + (calls.filterMap Call.rightFilter?).length := by
  induction calls with
  | nil => simp [keyCalls]
  | cons x xs ih =>
    simp only [keyCalls] at ih
    cases x with
    | addCondition side n e =>
      cases side <;>
        simp [keyCalls, List.filterMap_cons, Call.keyCall?, Call.rightExpression?,
          Call.rightFilter?, ih]
      omega
    | addKey l le r re ns =>
      simp [keyCalls, List.filterMap_cons, Call.keyCall?, Call.rightExpression?,
        Call.rightFilter?, ih]
      omega
    | addASOFKey l le r re q =>
      simp [keyCalls, List.filterMap_cons, Call.keyCall?, Call.rightExpression?,
        Call.rightFilter?, ih]
      omega
    | addMixedCondition n =>
      simp [keyCalls, List.filterMap_cons, Call.keyCall?, Call.rightExpression?,
        Call.rightFilter?, ih]

theorem leftExpression_of_no_filter (calls : List (Call ν ε))
    (h : calls.filterMap Call.leftFilter? = []) :
    calls.filterMap Call.leftExpression? = (keyCalls calls).map (·.left_key_expression) := by
  induction calls with
  | nil => simp [keyCalls]
  | cons x xs ih =>
    simp only [keyCalls] at ih
    cases x with
    | addCondition side n e =>
      cases side with
      | Left => simp [List.filterMap_cons, Call.leftFilter?] at h
      | Right =>
        simp only [List.filterMap_cons, Call.leftFilter?] at h
        simpa [keyCalls, List.filterMap_cons, Call.keyCall?, Call.leftExpression?] using ih h
    | _ =>
      simp only [List.filterMap_cons, Call.leftFilter?] at h
      simpa [keyCalls, List.filterMap_cons, Call.keyCall?, Call.leftExpression?] using ih h

theorem rightExpression_of_no_filter (calls : List (Call ν ε))
    (h : calls.filterMap Call.rightFilter? = []) :
    calls.filterMap Call.rightExpression? = (keyCalls calls).map (·.right_key_expression) := by
  induction calls with
  | nil => simp [keyCalls]
  | cons x xs ih =>
    simp only [keyCalls] at ih
    cases x with
    | addCondition side n e =>
      cases side with
      | Right => simp [List.filterMap_cons, Call.rightFilter?] at h
      | Left =>
        simp only [List.filterMap_cons, Call.rightFilter?] at h
        simpa [keyCalls, List.filterMap_cons, Call.keyCall?, Call.rightExpression?] using ih h
    | _ =>
      simp only [List.filterMap_cons, Call.rightFilter?] at h
      simpa [keyCalls, List.filterMap_cons, Call.keyCall?, Call.rightExpression?] using ih h

end JoinClause

section ClauseClaims

open JoinClause

/-- C1 (as worded, refuted): in the clause built by `addCondition(Left, 5, 50)`
followed by `addKey(1, 10, 2, 20)` the only left key node is `1`, while the
left key expression list is `[50, 10]`: it is longer than the key list and its
entry `0` is the expression of the filter, not the expression `10` passed with
key node `1`. -/
theorem C1_counterexample :
    (run [Call.addCondition JoinTableSide.Left (5 : Nat) (50 : Nat),
          Call.addKey 1 10 2 20 false]).getLeftKeyNodes = [1] ∧
    (run [Call.addCondition JoinTableSide.Left (5 : Nat) (50 : Nat),
          Call.addKey 1 10 2 20 false]).getLeftKeyExpressionNodes = [50, 10] ∧
    ¬ leftKeyExpressionsAligned
        [Call.addCondition JoinTableSide.Left (5 : Nat) (50 : Nat),
         Call.addKey 1 10 2 20 false] := by
  refine ⟨by decide, by decide, ?_⟩
  intro h
  exact absurd h.1 (by decide)

/-- C1 (amended): after any call sequence on an empty clause,
`getLeftKeyExpressionNodes()` holds, in call order, the `left_key_expression`
of every `addKey` / `addASOFKey` call and the `expression_node` of every
`addCondition(Left, ..)` call, so its length is the number of left key nodes
plus the number of left filter nodes; symmetrically on the right.  Whenever the
clause has no filter on a side, the key expressions of that side are aligned
with its key nodes: equal length, and the `i`-th entries are the node and the
expression passed in the call that added the `i`-th key pair. -/
theorem C1_key_expressions_record_key_and_filter_calls {ν ε : Type}
    (calls : List (Call ν ε)) :
    (run calls).getLeftKeyExpressionNodes = calls.filterMap Call.leftExpression? ∧
    (run calls).getRightKeyExpressionNodes = calls.filterMap Call.rightExpression? ∧
    (run calls).getLeftKeyExpressionNodes.length
      = (run calls).getLeftKeyNodes.length + (run calls).getLeftFilterConditionNodes.length ∧
    (run calls).getRightKeyExpressionNodes.length
      = (run calls).getRightKeyNodes.length + (run calls).getRightFilterConditionNodes.length ∧
    ((run calls).getLeftFilterConditionNodes = [] → leftKeyExpressionsAligned calls) ∧
    ((run calls).getRightFilterConditionNodes = [] → rightKeyExpressionsAligned calls) := by
  have hle : (run calls).left_key_expression_nodes = calls.filterMap Call.leftExpression? := by
    simp [run, runFrom_left_key_expression_nodes, empty]
  have hre : (run calls).right_key_expression_nodes = calls.filterMap Call.rightExpression? := by
    simp [run, runFrom_right_key_expression_nodes, empty]
  have hlk : (run calls).left_key_nodes = (keyCalls calls).map (·.left_key_node) := by
    simp [run, runFrom_left_key_nodes, empty]
  have hrk : (run calls).right_key_nodes = (keyCalls calls).map (·.right_key_node) := by
    simp [run, runFrom_right_key_nodes, empty]
  have hlf : (run calls).left_filter_condition_nodes = calls.filterMap Call.leftFilter? := by
    simp [run, runFrom_left_filter_condition_nodes, empty]
  have hrf : (run calls).right_filter_condition_nodes = calls.filterMap Call.rightFilter? := by
    simp [run, runFrom_right_filter_condition_nodes, empty]
  refine ⟨hle, hre, ?_, ?_, ?_, ?_⟩
  · simp only [getLeftKeyExpressionNodes, getLeftKeyNodes, getLeftFilterConditionNodes, hle, hlk,
      hlf, List.length_map]
    exact leftExpression_length calls
  · simp only [getRightKeyExpressionNodes, getRightKeyNodes, getRightFilterConditionNodes, hre,
      hrk, hrf, List.length_map]
    exact rightExpression_length calls
  · intro h
    simp only [getLeftFilterConditionNodes, hlf] at h
    have hx := leftExpression_of_no_filter calls h
    refine ⟨?_, ?_⟩
    · simp [getLeftKeyExpressionNodes, getLeftKeyNodes, hle, hlk, hx]
    · intro i k hk
      simp [getLeftKeyExpressionNodes, getLeftKeyNodes, hle, hlk, hx, List.getElem?_map, hk]
  · intro h
    simp only [getRightFilterConditionNodes, hrf] at h
    have hx := rightExpression_of_no_filter calls h
    refine ⟨?_, ?_⟩
    · simp [getRightKeyExpressionNodes, getRightKeyNodes, hre, hrk, hx]
    · intro i k hk
      simp [getRightKeyExpressionNodes, getRightKeyNodes, hre, hrk, hx, List.getElem?_map, hk]

/-- C2: after any call sequence on an empty clause there is one ASOF condition
per `addASOFKey` call, in call order; the `j`-th condition carries the
inequality of the `j`-th `addASOFKey` call, its `key_index` is a valid index of
the key lists, the key pair at `key_index` is the one added by that very call
(so the left and right key nodes stored there are the nodes passed to it), and
the `key_index` values are strictly increasing along the list. -/
theorem C2_asof_conditions_reference_their_key_pair {ν ε : Type}
    (calls : List (Call ν ε)) :
    (run calls).getASOFConditions.length = (calls.filter Call.isAddASOFKey).length ∧
    (∀ (j : Nat) (cond : ASOFCondition), (run calls).getASOFConditions[j]? = some cond →
      ∃ l le r re,
        (calls.filter Call.isAddASOFKey)[j]?
          = some (Call.addASOFKey l le r re cond.asof_inequality) ∧
        (keyCalls calls)[cond.key_index]?
          = some ⟨l, le, r, re, false, some cond.asof_inequality⟩ ∧
        cond.key_index < (run calls).getLeftKeyNodes.length ∧
        (run calls).getLeftKeyNodes[cond.key_index]? = some l ∧
        (run calls).getRightKeyNodes[cond.key_index]? = some r) ∧
    List.Pairwise (fun a b : ASOFCondition => a.key_index < b.key_index)
      (run calls).getASOFConditions := by
  have hasof : (run calls).asof_conditions = asofTrace 0 calls := by
    simp [run, runFrom_asof_conditions, empty]
  have hlk : (run calls).left_key_nodes = (keyCalls calls).map (·.left_key_node) := by
    simp [run, runFrom_left_key_nodes, empty]
  have hrk : (run calls).right_key_nodes = (keyCalls calls).map (·.right_key_node) := by
    simp [run, runFrom_right_key_nodes, empty]
  refine ⟨?_, ?_, ?_⟩
  · simp only [getASOFConditions, hasof]
    exact asofTrace_length calls 0
  · intro j cond h
    simp only [getASOFConditions, hasof] at h
    obtain ⟨l, le, r, re, h1, _, h3⟩ := asofTrace_getElem? calls 0 j cond h
    rw [Nat.sub_zero] at h3
    refine ⟨l, le, r, re, h1, h3, ?_, ?_, ?_⟩
    · simp only [getLeftKeyNodes, hlk, List.length_map]
      exact (List.getElem?_eq_some.mp h3).1
    · simp [getLeftKeyNodes, hlk, List.getElem?_map, h3]
    · simp [getRightKeyNodes, hrk, List.getElem?_map, h3]
  · simp only [getASOFConditions, hasof]
    exact asofTrace_pairwise calls 0

/-- C3: after any call sequence on an empty clause, `isNullsafeCompareKey(i)`
is true exactly when the `i`-th key pair was added by `addKey` with
`null_safe_comparison = true`; and once it is true for an index it stays true
after every further sequence of calls. -/
theorem C3_nullsafe_flag_recorded_exactly {ν ε : Type}
    (calls : List (Call ν ε)) (i : Nat) :
    ((run calls).isNullsafeCompareKey i = true ↔
      ∃ l le r re, (keyCalls calls)[i]? = some ⟨l, le, r, re, true, none⟩) ∧
    (∀ later : List (Call ν ε), (run calls).isNullsafeCompareKey i = true →
      (run (calls ++ later)).isNullsafeCompareKey i = true) := by
  have key : ∀ cs : List (Call ν ε), (run cs).isNullsafeCompareKey i = true ↔
      ∃ l le r re, (keyCalls cs)[i]? = some ⟨l, le, r, re, true, none⟩ := by
    intro cs
    simp only [isNullsafeCompareKey, unorderedSetContains, decide_eq_true_eq, run_nullsafe_iff]
    constructor
    · rintro ⟨⟨l, le, r, re, ns, q⟩, hk, h1, h2⟩
      simp only at h1 h2
      subst h1 h2
      exact ⟨l, le, r, re, hk⟩
    · rintro ⟨l, le, r, re, hk⟩
      exact ⟨_, hk, rfl, rfl⟩
  refine ⟨key calls, ?_⟩
  intro later h
  rw [key] at h ⊢
  obtain ⟨l, le, r, re, hk⟩ := h
  refine ⟨l, le, r, re, ?_⟩
  rw [keyCalls_append, List.getElem?_append_left (List.getElem?_eq_some.mp hk).1]
  exact hk

/-- C4: after any call sequence on an empty clause the left and the right key
lists have the same length, namely the number of `addKey` calls plus the
number of `addASOFKey` calls, and their `i`-th entries are the left and the
right node passed together in the `i`-th such call. -/
theorem C4_key_pairs_in_call_order {ν ε : Type} (calls : List (Call ν ε)) :
    (run calls).getLeftKeyNodes.length = (run calls).getRightKeyNodes.length ∧
    (run calls).getLeftKeyNodes.length
      = calls.countP Call.isAddKey + calls.countP Call.isAddASOFKey ∧
    (keyCalls calls).length = calls.countP Call.isAddKey + calls.countP Call.isAddASOFKey ∧
    (∀ (i : Nat) (k : KeyCall ν ε), (keyCalls calls)[i]? = some k →
      (run calls).getLeftKeyNodes[i]? = some k.left_key_node ∧
      (run calls).getRightKeyNodes[i]? = some k.right_key_node) := by
  have hlk : (run calls).left_key_nodes = (keyCalls calls).map (·.left_key_node) := by
    simp [run, runFrom_left_key_nodes, empty]
  have hrk : (run calls).right_key_nodes = (keyCalls calls).map (·.right_key_node) := by
    simp [run, runFrom_right_key_nodes, empty]
  refine ⟨?_, ?_, keyCalls_length calls, ?_⟩
  · simp [getLeftKeyNodes, getRightKeyNodes, hlk, hrk]
  · simp only [getLeftKeyNodes, hlk, List.length_map]
    exact keyCalls_length calls
  · intro i k hk
    simp [getLeftKeyNodes, getRightKeyNodes, hlk, hrk, List.getElem?_map, hk]

/-- C5: `addCondition(Left, n, e)` appends `n` to the left filter list and
leaves the right and mixed filter lists unchanged; `addCondition(Right, n, e)`
appends `n` to the right filter list and leaves the left and mixed lists
unchanged; `addMixedCondition(n)` appends `n` to the mixed filter list and
leaves the left and right lists unchanged.  Hence after any call sequence on an
empty clause each filter list holds, in call order, the nodes of the calls
routed to it. -/
theorem C5_filters_routed_to_one_list {ν ε : Type} (c : JoinClause ν ε) (n : ν) (e : ε)
    (calls : List (Call ν ε)) :
    ((c.addCondition JoinTableSide.Left n e).getLeftFilterConditionNodes
        = c.getLeftFilterConditionNodes ++ [n] ∧
      (c.addCondition JoinTableSide.Left n e).getRightFilterConditionNodes
        = c.getRightFilterConditionNodes ∧
      (c.addCondition JoinTableSide.Left n e).getMixedFilterConditionNodes
        = c.getMixedFilterConditionNodes) ∧
    ((c.addCondition JoinTableSide.Right n e).getRightFilterConditionNodes
        = c.getRightFilterConditionNodes ++ [n] ∧
      (c.addCondition JoinTableSide.Right n e).getLeftFilterConditionNodes
        = c.getLeftFilterConditionNodes ∧
      (c.addCondition JoinTableSide.Right n e).getMixedFilterConditionNodes
        = c.getMixedFilterConditionNodes) ∧
    ((c.addMixedCondition n).getMixedFilterConditionNodes
        = c.getMixedFilterConditionNodes ++ [n] ∧
      (c.addMixedCondition n).getLeftFilterConditionNodes = c.getLeftFilterConditionNodes ∧
      (c.addMixedCondition n).getRightFilterConditionNodes = c.getRightFilterConditionNodes) ∧
    ((run calls).getLeftFilterConditionNodes = calls.filterMap Call.leftFilter? ∧
      (run calls).getRightFilterConditionNodes = calls.filterMap Call.rightFilter? ∧
      (run calls).getMixedFilterConditionNodes = calls.filterMap Call.mixedFilter?) := by
  refine ⟨⟨rfl, rfl, rfl⟩, ⟨rfl, rfl, rfl⟩, ⟨rfl, rfl, rfl⟩, ?_, ?_, ?_⟩
  · simp [getLeftFilterConditionNodes, run, runFrom_left_filter_condition_nodes, empty]
  · simp [getRightFilterConditionNodes, run, runFrom_right_filter_condition_nodes, empty]
  · simp [getMixedFilterConditionNodes, run, runFrom_mixed_filter_condition_nodes, empty]

/-- C6: `addCondition` (for either side) and `addMixedCondition` leave
`getLeftKeyNodes()`, `getRightKeyNodes()`, `getASOFConditions()`, `hasASOF()`
and `isNullsafeCompareKey(i)` for every `i` unchanged; `addKey` and
`addASOFKey` leave the left, right and mixed filter lists unchanged. -/
theorem C6_filters_and_keys_do_not_interfere {ν ε : Type} (c : JoinClause ν ε)
    (table_side : JoinTableSide) (n : ν) (e : ε) (l r : ν) (le re : ε) (null_safe : Bool)
    (q : ASOFJoinInequality) :
    ((c.addCondition table_side n e).getLeftKeyNodes = c.getLeftKeyNodes ∧
      (c.addCondition table_side n e).getRightKeyNodes = c.getRightKeyNodes ∧
      (c.addCondition table_side n e).getASOFConditions = c.getASOFConditions ∧
      (c.addCondition table_side n e).hasASOF = c.hasASOF ∧
      ∀ i : Nat, (c.addCondition table_side n e).isNullsafeCompareKey i
        = c.isNullsafeCompareKey i) ∧
    ((c.addMixedCondition n).getLeftKeyNodes = c.getLeftKeyNodes ∧
      (c.addMixedCondition n).getRightKeyNodes = c.getRightKeyNodes ∧
      (c.addMixedCondition n).getASOFConditions = c.getASOFConditions ∧
      (c.addMixedCondition n).hasASOF = c.hasASOF ∧
      ∀ i : Nat, (c.addMixedCondition n).isNullsafeCompareKey i = c.isNullsafeCompareKey i) ∧
    ((c.addKey l le r re null_safe).getLeftFilterConditionNodes
        = c.getLeftFilterConditionNodes ∧
      (c.addKey l le r re null_safe).getRightFilterConditionNodes
        = c.getRightFilterConditionNodes ∧
      (c.addKey l le r re null_safe).getMixedFilterConditionNodes
        = c.getMixedFilterConditionNodes) ∧
    ((c.addASOFKey l le r re q).getLeftFilterConditionNodes = c.getLeftFilterConditionNodes ∧
      (c.addASOFKey l le r re q).getRightFilterConditionNodes
        = c.getRightFilterConditionNodes ∧
      (c.addASOFKey l le r re q).getMixedFilterConditionNodes
        = c.getMixedFilterConditionNodes) := by
  refine ⟨?_, ⟨rfl, rfl, rfl, rfl, fun _ => rfl⟩, ⟨rfl, rfl, rfl⟩, ⟨rfl, rfl, rfl⟩⟩
  cases table_side <;> exact ⟨rfl, rfl, rfl, rfl, fun _ => rfl⟩

end ClauseClaims

/-! ### Constant folding -/

theorem foldConstant_eq_none_iff (e : ExpressionNode) :
    foldConstant e = none ↔ e.referencesColumn = true := by
  induction e with
  | column side name => simp [foldConstant, ExpressionNode.referencesColumn]
  | constant value => simp [foldConstant, ExpressionNode.referencesColumn]
  | func name lhs rhs ihl ihr =>
    simp only [foldConstant, ExpressionNode.referencesColumn, Bool.or_eq_true]
    rw [← ihl, ← ihr]
    cases foldConstant lhs <;> cases foldConstant rhs <;> simp

theorem isTrueValue_boolValue (b : Bool) : isTrueValue (boolValue b) = b := by
  cases b <;> decide

theorem foldConstant_of_literalTrue (e : ExpressionNode)
    (h : e.isLiteralTrueCombination = true) :
    ∃ value, foldConstant e = some value ∧ isTrueValue value = true := by
  induction e with
  | column side name => simp [ExpressionNode.isLiteralTrueCombination] at h
  | constant value =>
    exact ⟨value, rfl, by simpa [ExpressionNode.isLiteralTrueCombination] using h⟩
  | func name lhs rhs ihl ihr =>
    cases name with
    | and =>
      simp only [ExpressionNode.isLiteralTrueCombination, Bool.and_eq_true] at h
      obtain ⟨a, ha, hat⟩ := ihl h.1
      obtain ⟨b, hb, hbt⟩ := ihr h.2
      refine ⟨FunctionName.and.evaluate a b, by simp [foldConstant, ha, hb], ?_⟩
      simp [FunctionName.evaluate, isTrueValue_boolValue, hat, hbt]
    | or =>
      simp only [ExpressionNode.isLiteralTrueCombination, Bool.and_eq_true] at h
      obtain ⟨a, ha, hat⟩ := ihl h.1
      obtain ⟨b, hb, hbt⟩ := ihr h.2
      refine ⟨FunctionName.or.evaluate a b, by simp [foldConstant, ha, hb], ?_⟩
      simp [FunctionName.evaluate, isTrueValue_boolValue, hat, hbt]
    | _ => simp [ExpressionNode.isLiteralTrueCombination] at h

/-- C10: the constant-fold probe returns `some true` for every condition built
only from literal-true terms combined by AND / OR (as `ON 1`), `some false`
for every condition without column reference that folds to the literal
falsehood `0` (as `ON 1 != 1`), and `none` for every condition that references
a column (as `t1.id = t2.id`). -/
theorem C10_constant_probe :
    (∀ e : ExpressionNode, e.isLiteralTrueCombination = true →
      tryExtractConstantFromJoinNode e = some true) ∧
    (∀ e : ExpressionNode, foldConstant e = some 0 →
      tryExtractConstantFromJoinNode e = some false) ∧
    (∀ e : ExpressionNode, e.referencesColumn = true →
      tryExtractConstantFromJoinNode e = none) := by
  refine ⟨?_, ?_, ?_⟩
  · intro e h
    obtain ⟨value, hv, ht⟩ := foldConstant_of_literalTrue e h
    simp [tryExtractConstantFromJoinNode, hv, ht]
  · intro e h
    simp [tryExtractConstantFromJoinNode, h, isTrueValue]
  · intro e h
    simp [tryExtractConstantFromJoinNode, (foldConstant_eq_none_iff e).mpr h]

/-- C10 at the three conditions of the specification: `ON 1`, `ON 1 != 1` and
`ON t1.id = t2.id`. -/
theorem C10_constant_probe_witness :
    tryExtractConstantFromJoinNode (.constant 1) = some true ∧
    tryExtractConstantFromJoinNode (.func .notEquals (.constant 1) (.constant 1)) = some false ∧
    tryExtractConstantFromJoinNode
      (.func .equals (.column .Left "id") (.column .Right "id")) = none :=
  ⟨C10_constant_probe.1 (.constant 1) (by decide),
   C10_constant_probe.2.1 (.func .notEquals (.constant 1) (.constant 1)) (by decide),
   C10_constant_probe.2.2 (.func .equals (.column .Left "id") (.column .Right "id"))
     (by decide)⟩

/-! ### The clause builder -/

theorem addConjunct_error (join_kind : JoinKind) (b : ClauseBuilder) (e : ExpressionNode)
    (err : AnalysisError) (h : addConjunct join_kind b e = .error err) :
    err = AnalysisError.UnsupportedClauseShape := by
  unfold addConjunct at h
  split at h
  · cases h
  · split at h
    · cases h; rfl
    · cases h
  · split at h
    · cases h
    · cases h
    · cases h
    · split at h <;> cases h

theorem addConjunct_asof (join_kind : JoinKind) (b b1 : ClauseBuilder) (e : ExpressionNode)
    (h : addConjunct join_kind b e = .ok b1) (hb : b.clause.asof_conditions.length ≤ 1) :
    b1.clause.asof_conditions.length ≤ 1 ∧
    b1.clause.asof_conditions.length
      = b.clause.asof_conditions.length + (if isASOFEligible join_kind e then 1 else 0) := by
  unfold addConjunct at h
  unfold isASOFEligible
  split at h
  · next l r ns heq =>
    cases h
    simp [heq, JoinClause.addKey, hb]
  · next l r q heq =>
    split at h
    · cases h
    · next hno =>
      cases h
      have h0 : b.clause.asof_conditions = [] := by
        cases hc : b.clause.asof_conditions with
        | nil => rfl
        | cons x xs => simp [JoinClause.hasASOF, hc] at hno
      simp [heq, JoinClause.addASOFKey, h0]
  · next heq =>
    split at h
    · cases h; simp [heq, JoinClause.addCondition, hb]
    · cases h; simp [heq, JoinClause.addCondition, hb]
    · cases h; simp [heq, JoinClause.addMixedCondition, hb]
    · split at h <;> cases h <;> simp [heq, hb]

theorem addConjuncts_error (join_kind : JoinKind) (es : List ExpressionNode) :
    ∀ (b : ClauseBuilder) (err : AnalysisError), addConjuncts join_kind b es = .error err →
      err = AnalysisError.UnsupportedClauseShape := by
  induction es with
  | nil => intro b err h; simp [addConjuncts] at h
  | cons e es ih =>
    intro b err h
    simp only [addConjuncts] at h
    cases hc : addConjunct join_kind b e with
    | error err1 =>
      rw [hc] at h
      cases h
      exact addConjunct_error join_kind b e _ hc
    | ok b1 =>
      rw [hc] at h
      exact ih b1 err h

theorem addConjuncts_asof (join_kind : JoinKind) (es : List ExpressionNode) :
    ∀ (b b1 : ClauseBuilder), addConjuncts join_kind b es = .ok b1 →
      b.clause.asof_conditions.length ≤ 1 →
      b1.clause.asof_conditions.length ≤ 1 ∧
      b1.clause.asof_conditions.length
        = b.clause.asof_conditions.length + es.countP (isASOFEligible join_kind) := by
  induction es with
  | nil =>
    intro b b1 h hb
    simp only [addConjuncts, Except.ok.injEq] at h
    subst h
    simp [hb]
  | cons e es ih =>
    intro b b1 h hb
    simp only [addConjuncts] at h
    cases hc : addConjunct join_kind b e with
    | error err1 => rw [hc] at h; cases h
    | ok b2 =>
      rw [hc] at h
      obtain ⟨h1, h2⟩ := addConjunct_asof join_kind b b2 e hc hb
      obtain ⟨h3, h4⟩ := ih b2 b1 h h1
      refine ⟨h3, ?_⟩
      rw [h4, h2, List.countP_cons]
      omega

theorem buildJoinClause_asof (join_kind : JoinKind) (d : ExpressionNode) (b : ClauseBuilder)
    (h : buildJoinClause join_kind d = .ok b) :
    b.clause.asof_conditions.length ≤ 1 ∧
    (flattenConjunction d).countP (isASOFEligible join_kind) ≤ 1 := by
  obtain ⟨h1, h2⟩ :=
    addConjuncts_asof join_kind (flattenConjunction d) ClauseBuilder.initial b h
      (by simp [ClauseBuilder.initial, JoinClause.empty])
  refine ⟨h1, ?_⟩
  simp only [ClauseBuilder.initial, JoinClause.empty, List.length_nil, Nat.zero_add] at h2
  omega

theorem buildJoinClauses_error (join_kind : JoinKind) (ds : List ExpressionNode) :
    ∀ err : AnalysisError, buildJoinClauses join_kind ds = .error err →
      err = AnalysisError.UnsupportedClauseShape := by
  induction ds with
  | nil => intro err h; simp [buildJoinClauses] at h
  | cons d ds ih =>
    intro err h
    simp only [buildJoinClauses] at h
    cases hc : buildJoinClause join_kind d with
    | error err1 =>
      rw [hc] at h
      cases h
      exact addConjuncts_error join_kind _ _ _ hc
    | ok b =>
      rw [hc] at h
      cases hr : buildJoinClauses join_kind ds with
      | error err2 => rw [hr] at h; cases h; exact ih _ hr
      | ok bs => rw [hr] at h; cases h

theorem buildJoinClauses_asof (join_kind : JoinKind) (ds : List ExpressionNode) :
    ∀ bs : List ClauseBuilder, buildJoinClauses join_kind ds = .ok bs →
      (∀ b ∈ bs, b.clause.asof_conditions.length ≤ 1) ∧
      (∀ d ∈ ds, (flattenConjunction d).countP (isASOFEligible join_kind) ≤ 1) := by
  induction ds with
  | nil =>
    intro bs h
    simp only [buildJoinClauses, Except.ok.injEq] at h
    subst h
    simp
  | cons d ds ih =>
    intro bs h
    simp only [buildJoinClauses] at h
    cases hc : buildJoinClause join_kind d with
    | error err1 => rw [hc] at h; cases h
    | ok b =>
      rw [hc] at h
      cases hr : buildJoinClauses join_kind ds with
      | error err2 => rw [hr] at h; cases h
      | ok bs1 =>
        rw [hr] at h
        cases h
        obtain ⟨h1, h2⟩ := buildJoinClause_asof join_kind d b hc
        obtain ⟨h3, h4⟩ := ih bs1 hr
        constructor
        · intro b0 hb0
          rcases List.mem_cons.mp hb0 with hb0 | hb0
          · subst hb0; exact h1
          · exact h3 b0 hb0
        · intro d0 hd0
          rcases List.mem_cons.mp hd0 with hd0 | hd0
          · subst hd0; exact h2
          · exact h4 d0 hd0

theorem mem_survivingClauses (bs : List ClauseBuilder)
    (c : JoinClause ExpressionNode ExpressionNode) (h : c ∈ survivingClauses bs) :
    ∃ b ∈ bs, c = b.clause ∨
      c = b.clause.addCondition JoinTableSide.Left (.constant 0) (.constant 0) := by
  unfold survivingClauses at h
  split at h
  · obtain ⟨b, hb, rfl⟩ := List.mem_map.mp h
    exact ⟨b, List.mem_of_mem_take hb, Or.inr rfl⟩
  · obtain ⟨b, hb, rfl⟩ := List.mem_map.mp h
    exact ⟨b, (List.mem_filter.mp hb).1, Or.inl rfl⟩

theorem buildJoinClausesAndActions_error (join_expression : ExpressionNode)
    (join_kind : JoinKind) (err : AnalysisError)
    (h : buildJoinClausesAndActions join_expression join_kind = .error err) :
    err = AnalysisError.UnsupportedClauseShape := by
  unfold buildJoinClausesAndActions at h
  split at h
  · next err1 hc =>
    cases h
    exact buildJoinClauses_error join_kind _ _ hc
  · split at h
    · cases h; rfl
    · cases h

/-- C7: every bundle the clause builder returns has at most one ASOF condition
in each of its clauses; and a condition one clause of which has two (or more)
conjuncts eligible as ASOF conditions for the join kind is rejected with the
analysis error `UnsupportedClauseShape`. -/
theorem C7_at_most_one_asof_condition (join_expression : ExpressionNode)
    (join_kind : JoinKind) :
    (∀ bundle : JoinClausesAndActions,
      buildJoinClausesAndActions join_expression join_kind = .ok bundle →
      ∀ c ∈ bundle.join_clauses, c.getASOFConditions.length ≤ 1) ∧
    (∀ d ∈ splitDisjunction join_expression,
      2 ≤ (flattenConjunction d).countP (isASOFEligible join_kind) →
      buildJoinClausesAndActions join_expression join_kind
        = .error AnalysisError.UnsupportedClauseShape) := by
  constructor
  · intro bundle h c hc
    unfold buildJoinClausesAndActions at h
    split at h
    · cases h
    · next builders hb =>
      split at h
      · cases h
      · cases h
        obtain ⟨b, hbm, hcb⟩ := mem_survivingClauses builders c hc
        have hasof : c.getASOFConditions = b.clause.asof_conditions := by
          rcases hcb with rfl | rfl <;> rfl
        rw [hasof]
        exact (buildJoinClauses_asof join_kind _ builders hb).1 b hbm
  · intro d hd hcount
    cases hr : buildJoinClausesAndActions join_expression join_kind with
    | error err => rw [buildJoinClausesAndActions_error _ _ _ hr]
    | ok bundle =>
      exfalso
      unfold buildJoinClausesAndActions at hr
      split at hr
      · cases hr
      · next builders hb =>
        have := (buildJoinClauses_asof join_kind _ builders hb).2 d hd
        omega

/-- C7 at concrete conditions of an ASOF join: `t1.a < t2.b AND t2.c >= t1.d`
has two eligible inequalities and is rejected; `t1.k = t2.k AND t1.a < t2.b` is
accepted and each clause of its bundle has at most one ASOF condition. -/
theorem C7_at_most_one_asof_condition_witness :
    buildJoinClausesAndActions
        (.func .and (.func .less (.column .Left "a") (.column .Right "b"))
          (.func .greaterOrEquals (.column .Right "c") (.column .Left "d"))) .Asof
      = .error AnalysisError.UnsupportedClauseShape ∧
    ∃ bundle,
      buildJoinClausesAndActions
        (.func .and (.func .equals (.column .Left "k") (.column .Right "k"))
          (.func .less (.column .Left "a") (.column .Right "b"))) .Asof = .ok bundle ∧
      ∀ c ∈ bundle.join_clauses, c.getASOFConditions.length ≤ 1 :=
  ⟨(C7_at_most_one_asof_condition
      (.func .and (.func .less (.column .Left "a") (.column .Right "b"))
        (.func .greaterOrEquals (.column .Right "c") (.column .Left "d"))) .Asof).2
      (.func .and (.func .less (.column .Left "a") (.column .Right "b"))
        (.func .greaterOrEquals (.column .Right "c") (.column .Left "d")))
      (by decide) (by decide),
   _, rfl,
   (C7_at_most_one_asof_condition
      (.func .and (.func .equals (.column .Left "k") (.column .Right "k"))
        (.func .less (.column .Left "a") (.column .Right "b"))) .Asof).1 _ rfl⟩

theorem splitComparison?_eq_none (join_kind : JoinKind) (e : ExpressionNode)
    (h : classify e ≠ ExpressionSide.Both) : splitComparison? join_kind e = none := by
  cases e with
  | column side name => rfl
  | constant value => rfl
  | func name lhs rhs =>
    simp only [classify] at h
    simp only [splitComparison?]
    cases hl : classify lhs <;> cases hr : classify rhs <;>
      simp_all [ExpressionSide.combine]

theorem flattenConjunction_of_not_conjunction (e : ExpressionNode)
    (h : e.isConjunction = false) : flattenConjunction e = [e] := by
  cases e with
  | column side name => rfl
  | constant value => rfl
  | func name lhs rhs =>
    cases name <;> first | rfl | simp [ExpressionNode.isConjunction] at h

theorem buildJoinClause_key_two_filters (join_kind : JoinKind) (L R P Q e : ExpressionNode)
    (hL : classify L = ExpressionSide.LeftOnly) (hR : classify R = ExpressionSide.RightOnly)
    (hP : classify P = ExpressionSide.LeftOnly) (hQ : classify Q = ExpressionSide.RightOnly)
    (he : flattenConjunction e = [.func .equals L R, P, Q]) :
    buildJoinClause join_kind e
      = .ok { clause := keyWithTwoFilters L R P Q, unsatisfiable := false } := by
  have hPs : splitComparison? join_kind P = none :=
    splitComparison?_eq_none join_kind P (by rw [hP]; decide)
  have hQs : splitComparison? join_kind Q = none :=
    splitComparison?_eq_none join_kind Q (by rw [hQ]; decide)
  have hK : splitComparison? join_kind (.func .equals L R)
      = some (SplitComparison.key L R false) := by
    simp [splitComparison?, hL, hR, splitComparisonOf, FunctionName.isEquality,
      FunctionName.isNullSafeEquality]
  simp [buildJoinClause, he, addConjuncts, addConjunct, hK, hPs, hQs, hP, hQ,
    ClauseBuilder.initial, keyWithTwoFilters]

/-- C8: for `L` and `P` depending only on left columns, `R` and `Q` only on
right columns, and `P`, `Q` single conjuncts (not conjunctions themselves), the
condition `L = R AND P AND Q`, in either nesting of its two ANDs, is accepted
for every join kind and yields exactly one clause, with exactly one key pair
`(L, R)`, exactly one left filter `P`, exactly one right filter `Q` and no
mixed filter. -/
theorem C8_key_and_two_side_filters (L R P Q : ExpressionNode) (join_kind : JoinKind)
    (hL : classify L = ExpressionSide.LeftOnly) (hR : classify R = ExpressionSide.RightOnly)
    (hP : classify P = ExpressionSide.LeftOnly) (hQ : classify Q = ExpressionSide.RightOnly)
    (hPc : P.isConjunction = false) (hQc : Q.isConjunction = false) :
    yieldsKeyAndTwoSideFilters (.func .and (.func .and (.func .equals L R) P) Q)
      join_kind L R P Q ∧
    yieldsKeyAndTwoSideFilters (.func .and (.func .equals L R) (.func .and P Q))
      join_kind L R P Q := by
  have key : ∀ e : ExpressionNode, splitDisjunction e = [e] →
      flattenConjunction e = [.func .equals L R, P, Q] →
      yieldsKeyAndTwoSideFilters e join_kind L R P Q := by
    intro e hsplit hflat
    have hb := buildJoinClause_key_two_filters join_kind L R P Q e hL hR hP hQ hflat
    refine ⟨projectActions e [keyWithTwoFilters L R P Q], keyWithTwoFilters L R P Q,
      ?_, rfl, rfl, rfl, rfl, rfl, rfl, rfl, rfl⟩
    simp [buildJoinClausesAndActions, hsplit, buildJoinClauses, hb, survivingClauses]
  constructor
  · exact key _ rfl
      (by simp [flattenConjunction, flattenConjunction_of_not_conjunction, hPc, hQc])
  · exact key _ rfl
      (by simp [flattenConjunction, flattenConjunction_of_not_conjunction, hPc, hQc])

/-- C8 at the condition `t1.id = t2.id AND t1.a > 0 AND t2.b > 0` of an inner
join: one clause, key pair `(t1.id, t2.id)`, left filter `t1.a > 0`, right
filter `t2.b > 0`, no mixed filter. -/
theorem C8_key_and_two_side_filters_witness :
    yieldsKeyAndTwoSideFilters
      (.func .and
        (.func .and (.func .equals (.column .Left "id") (.column .Right "id"))
          (.func .greater (.column .Left "a") (.constant 0)))
        (.func .greater (.column .Right "b") (.constant 0)))
      .Inner (.column .Left "id") (.column .Right "id")
      (.func .greater (.column .Left "a") (.constant 0))
      (.func .greater (.column .Right "b") (.constant 0)) :=
  (C8_key_and_two_side_filters (.column .Left "id") (.column .Right "id")
    (.func .greater (.column .Left "a") (.constant 0))
    (.func .greater (.column .Right "b") (.constant 0)) .Inner rfl rfl rfl rfl rfl rfl).1

/-- C9: in every bundle the clause builder returns, the mixed join expression
actions are present if and only if at least one clause of the bundle has a
non-empty mixed filter list. -/
theorem C9_mixed_actions_present_iff (join_expression : ExpressionNode)
    (join_kind : JoinKind) (bundle : JoinClausesAndActions)
    (h : buildJoinClausesAndActions join_expression join_kind = .ok bundle) :
    bundle.mixed_join_expressions_actions.isSome = true ↔
      ∃ c ∈ bundle.join_clauses, c.getMixedFilterConditionNodes ≠ [] := by
  unfold buildJoinClausesAndActions at h
  split at h
  · cases h
  · next builders hb =>
    split at h
    · cases h
    · cases h
      simp only [projectActions]
      split
      · next hany =>
        simp only [Option.isSome_some, true_iff]
        obtain ⟨c, hc, hne⟩ := List.any_eq_true.mp hany
        refine ⟨c, hc, ?_⟩
        intro hnil
        simp [hnil] at hne
      · next hany =>
        simp only [Option.isSome_none, Bool.false_eq_true, false_iff]
        rintro ⟨c, hc, hne⟩
        apply hany
        refine List.any_eq_true.mpr ⟨c, hc, ?_⟩
        cases hm : c.getMixedFilterConditionNodes with
        | nil => exact absurd hm hne
        | cons x xs => rfl

/-- C9 at the condition `t1.a + t2.b > 0` of an inner join: the bundle is
returned, its clause has a mixed filter, and the mixed actions are present. -/
theorem C9_mixed_actions_present_iff_witness :
    ∃ bundle,
      buildJoinClausesAndActions
        (.func .greater (.func .plus (.column .Left "a") (.column .Right "b")) (.constant 0))
        .Inner = .ok bundle ∧
      (∃ c ∈ bundle.join_clauses, c.getMixedFilterConditionNodes ≠ []) ∧
      bundle.mixed_join_expressions_actions.isSome = true :=
  ⟨_, rfl, ⟨_, List.mem_singleton.mpr rfl, by decide⟩,
   (C9_mixed_actions_present_iff
      (.func .greater (.func .plus (.column .Left "a") (.column .Right "b")) (.constant 0))
      .Inner _ rfl).mpr ⟨_, List.mem_singleton.mpr rfl, by decide⟩⟩

/-! ### Round trip of the decomposition -/

theorem getAttributeIn_setAttributeIn_same (attributes : List (List Char × List Char))
    (name value : List Char) :
    getAttributeIn (setAttributeIn attributes name value) name = some value := by
  induction attributes with
  | nil => simp [setAttributeIn, getAttributeIn]
  | cons a rest ih =>
    obtain ⟨n, v⟩ := a
    by_cases h : n = name
    · simp [setAttributeIn, getAttributeIn, h]
    · simp [setAttributeIn, getAttributeIn, h, ih]

theorem getAttributeIn_setAttributeIn_other (attributes : List (List Char × List Char))
    (name value other : List Char) (hne : other ≠ name) :
    getAttributeIn (setAttributeIn attributes name value) other
      = getAttributeIn attributes other := by
  induction attributes with
  | nil => simp [setAttributeIn, getAttributeIn, Ne.symm hne]
  | cons a rest ih =>
    obtain ⟨n, v⟩ := a
    by_cases h : n = name
    · subst h
      simp [setAttributeIn, getAttributeIn, Ne.symm hne]
    · by_cases h2 : n = other
      · subst h2
        simp [setAttributeIn, getAttributeIn, h]
      · simp [setAttributeIn, getAttributeIn, h, h2, ih]

/-- C14: a mapping entry is converted to an attribute if and only if its key
starts with `@` and its value is a scalar.  In that case the entry sets on the
parent element the attribute whose name is the key without its first character
and whose value is the string of the scalar, keeps every other attribute, and
leaves the child nodes of the parent as they are; in every other case an entry
that is processed successfully leaves the attributes as they are and adds at
least one child node. -/
theorem C14_attribute_entries (key : List Char) (value_node : YAMLNode) (parent : Element) :
    (startsWith key YAML_ATTRIBUTE_PREFIX = true ∧ value_node.IsScalar = true →
      ∃ parent1, processMapEntry (some key) value_node parent = .ok parent1 ∧
        parent1 = parent.setAttribute (key.drop 1) value_node.asString ∧
        getAttributeIn parent1.attributes (key.drop 1) = some value_node.asString ∧
        (∀ other, other ≠ key.drop 1 →
          getAttributeIn parent1.attributes other = getAttributeIn parent.attributes other) ∧
        parent1.childNodes = parent.childNodes ∧ parent1.nodeName = parent.nodeName) ∧
    (¬ (startsWith key YAML_ATTRIBUTE_PREFIX = true ∧ value_node.IsScalar = true) →
      ∀ parent1, processMapEntry (some key) value_node parent = .ok parent1 →
        parent1.attributes = parent.attributes ∧
        ∃ added, added ≠ [] ∧ parent1.childNodes = parent.childNodes ++ added) := by
  constructor
  · rintro ⟨h1, h2⟩
    refine ⟨parent.setAttribute (key.drop 1) value_node.asString, ?_, rfl, ?_, ?_, rfl, rfl⟩
    · simp [processMapEntry, processMap, h1, h2, substr1]
    · exact getAttributeIn_setAttributeIn_same _ _ _
    · intro other hne
      exact getAttributeIn_setAttributeIn_other _ _ _ _ hne
  · intro hnot parent1 h
    have hcond : (startsWith key YAML_ATTRIBUTE_PREFIX && value_node.IsScalar) = false := by
      cases h1 : startsWith key YAML_ATTRIBUTE_PREFIX <;> cases h2 : value_node.IsScalar <;>
        simp_all
    simp only [processMapEntry, processMap, hcond, Bool.false_eq_true, if_false] at h
    split at h
    · split at h
      · cases h
      · cases h
        exact ⟨rfl, [.text value_node.asString], by simp, rfl⟩
    · split at h
      · cases h
      · next xml_key clones _ =>
        cases h
        exact ⟨rfl, xml_key.toNode :: clones.map Element.toNode, by simp, rfl⟩

/-- C14 at the entry `"@attribute": attr_value` and an element `<node/>`. -/
theorem C14_attribute_entries_witness :
    processMapEntry (some "@attribute".toList) (.Scalar "attr_value".toList)
        (createElement "node".toList)
      = .ok { nodeName := "node".toList
              attributes := [("attribute".toList, "attr_value".toList)]
              childNodes := [] } := by
  obtain ⟨parent1, h1, h2, _⟩ :=
    (C14_attribute_entries "@attribute".toList (.Scalar "attr_value".toList)
      (createElement "node".toList)).1 ⟨by decide, by decide⟩
  rw [h1, h2]
  rfl

/-- C15: a mapping entry with key `#text` and a scalar value fails with
`CANNOT_PARSE_YAML` if and only if the parent element already has a text node
among its children; otherwise it appends exactly one text node carrying the
value to the parent element, and nothing else changes.  A node of undefined
type always fails with `CANNOT_PARSE_YAML`, and a null node changes nothing. -/
theorem C15_text_entries (value : List Char) (parent : Element) :
    (processMapEntry (some "#text".toList) (.Scalar value) parent
        = .error YAMLError.CANNOT_PARSE_YAML ↔ parent.hasTextChild = true) ∧
    (parent.hasTextChild = true ↔ ∃ child ∈ parent.childNodes, child.isText = true) ∧
    (parent.hasTextChild = false →
      processMapEntry (some "#text".toList) (.Scalar value) parent
        = .ok { nodeName := parent.nodeName
                attributes := parent.attributes
                childNodes := parent.childNodes ++ [.text value] }) ∧
    processNode .Undefined parent = .error YAMLError.CANNOT_PARSE_YAML ∧
    processNode .Null parent = .ok (parent, []) := by
  have hkey : startsWith ['#', 't', 'e', 'x', 't'] YAML_ATTRIBUTE_PREFIX = false := by decide
  refine ⟨?_, ?_, ?_, rfl, rfl⟩
  · cases h : parent.hasTextChild <;>
      simp [processMapEntry, processMap, hkey, YAMLNode.IsScalar, h]
  · simp [Element.hasTextChild, List.any_eq_true]
  · intro h
    simp [processMapEntry, processMap, hkey, YAMLNode.IsScalar, h, Element.appendChild,
      YAMLNode.asString]

/-- C15 at an element without children (the text node is appended) and at an
element that already holds a text node (the entry is rejected). -/
theorem C15_text_entries_witness :
    processMapEntry (some "#text".toList) (.Scalar "v".toList) (createElement "a".toList)
      = .ok { nodeName := "a".toList, attributes := [], childNodes := [.text "v".toList] } ∧
    processMapEntry (some "#text".toList) (.Scalar "v".toList)
        { nodeName := "a".toList, attributes := [], childNodes := [.text "u".toList] }
      = .error YAMLError.CANNOT_PARSE_YAML :=
  ⟨(C15_text_entries "v".toList (createElement "a".toList)).2.2.1 (by decide),
   (C15_text_entries "v".toList
      { nodeName := "a".toList, attributes := [], childNodes := [.text "u".toList] }).1.mpr
      (by decide)⟩

theorem processMap_nodeName (entries : List (Option (List Char) × YAMLNode)) :
    ∀ parent parent1 : Element, processMap entries parent = .ok parent1 →
      parent1.nodeName = parent.nodeName := by
  induction entries with
  | nil =>
    intro parent parent1 h
    simp only [processMap, Except.ok.injEq] at h
    rw [← h]
  | cons entry rest ih =>
    intro parent parent1 h
    obtain ⟨key, value_node⟩ := entry
    cases key with
    | none => simp [processMap] at h
    | some key =>
      simp only [processMap] at h
      split at h
      · exact (ih _ _ h).trans rfl
      · split at h
        · split at h
          · cases h
          · exact (ih _ _ h).trans rfl
        · split at h
          · cases h
          · exact (ih _ _ h).trans rfl

theorem processNode_of_scalar_or_map (item : YAMLNode) (parent parent1 : Element)
    (clones : List Element) (hitem : item.IsScalar = true ∨ item.IsMap = true)
    (h : processNode item parent = .ok (parent1, clones)) :
    clones = [] ∧ parent1.nodeName = parent.nodeName := by
  cases item with
  | Scalar value =>
    simp only [processNode, Except.ok.injEq, Prod.mk.injEq] at h
    exact ⟨h.2.symm, by rw [← h.1]; rfl⟩
  | Map entries =>
    simp only [processNode] at h
    split at h
    · cases h
    · next parent2 hm =>
      simp only [Except.ok.injEq, Prod.mk.injEq] at h
      exact ⟨h.2.symm, by rw [← h.1]; exact processMap_nodeName entries _ _ hm⟩
  | Sequence items => simp [YAMLNode.IsScalar, YAMLNode.IsMap] at hitem
  | Null => simp [YAMLNode.IsScalar, YAMLNode.IsMap] at hitem
  | Undefined => simp [YAMLNode.IsScalar, YAMLNode.IsMap] at hitem

theorem processSequence_clones (items : List YAMLNode)
    (hitems : ∀ item ∈ items, item.IsScalar = true ∨ item.IsMap = true) :
    ∀ (i : Nat) (parent : Element), 0 < i →
      processSequence items i parent =
        match convertedItems parent.nodeName items with
        | .error err => .error err
        | .ok elements => .ok (parent, elements) := by
  induction items with
  | nil => intro i parent _; simp [processSequence, convertedItems]
  | cons item rest ih =>
    intro i parent hi
    have hrest : ∀ x ∈ rest, x.IsScalar = true ∨ x.IsMap = true :=
      fun x hx => hitems x (List.mem_cons_of_mem _ hx)
    simp only [processSequence, hi, if_true, convertedItems]
    cases hp : processNode item (createElement parent.nodeName) with
    | error err => rfl
    | ok r =>
      obtain ⟨clone_node, clones⟩ := r
      obtain ⟨hc, _⟩ := processNode_of_scalar_or_map item _ _ _
        (hitems item (List.mem_cons_self _ _)) hp
      subst hc
      simp only [ih hrest (i + 1) parent (Nat.succ_pos i)]
      cases convertedItems parent.nodeName rest <;> simp

theorem processSequence_first (key : List Char) (items : List YAMLNode)
    (hne : items ≠ [])
    (hitems : ∀ item ∈ items, item.IsScalar = true ∨ item.IsMap = true) :
    processSequence items 0 (createElement key) =
      match convertedItems key items with
      | .error err => .error err
      | .ok [] => .ok (createElement key, [])
      | .ok (xml_key :: clones) => .ok (xml_key, clones) := by
  cases items with
  | nil => exact absurd rfl hne
  | cons item rest =>
    have hrest : ∀ x ∈ rest, x.IsScalar = true ∨ x.IsMap = true :=
      fun x hx => hitems x (List.mem_cons_of_mem _ hx)
    simp only [processSequence, Nat.lt_irrefl, if_false, convertedItems]
    cases hp : processNode item (createElement key) with
    | error err => rfl
    | ok r =>
      obtain ⟨parent1, clones⟩ := r
      obtain ⟨hc, hname⟩ := processNode_of_scalar_or_map item _ _ _
        (hitems item (List.mem_cons_self _ _)) hp
      subst hc
      have hk : parent1.nodeName = key := hname
      simp only [processSequence_clones rest hrest 1 parent1 Nat.one_pos, hk]
      cases convertedItems key rest <;> simp

theorem convertedItems_spec (key : List Char) (items : List YAMLNode)
    (hitems : ∀ item ∈ items, item.IsScalar = true ∨ item.IsMap = true) :
    ∀ elements : List Element, convertedItems key items = .ok elements →
      elements.length = items.length ∧
      ∀ (i : Nat) (element : Element), elements[i]? = some element →
        element.nodeName = key ∧
        (∀ value, items[i]? = some (.Scalar value) →
          element = { nodeName := key, attributes := [], childNodes := [.text value] }) ∧
        (∀ entries, items[i]? = some (.Map entries) →
          processMap entries (createElement key) = .ok element) := by
  induction items with
  | nil =>
    intro elements h
    simp only [convertedItems, Except.ok.injEq] at h
    subst h
    simp
  | cons item rest ih =>
    intro elements h
    have hrest : ∀ x ∈ rest, x.IsScalar = true ∨ x.IsMap = true :=
      fun x hx => hitems x (List.mem_cons_of_mem _ hx)
    simp only [convertedItems] at h
    cases hp : processNode item (createElement key) with
    | error err => rw [hp] at h; cases h
    | ok r =>
      obtain ⟨element0, clones⟩ := r
      rw [hp] at h
      cases hr : convertedItems key rest with
      | error err => rw [hr] at h; cases h
      | ok elements1 =>
        rw [hr] at h
        simp only [Except.ok.injEq] at h
        subst h
        obtain ⟨hlen, hall⟩ := ih hrest elements1 hr
        refine ⟨by simp [hlen], ?_⟩
        intro i element hi
        cases i with
        | zero =>
          simp only [List.getElem?_cons_zero, Option.some.injEq] at hi
          subst hi
          obtain ⟨_, hname⟩ := processNode_of_scalar_or_map item _ _ _
            (hitems item (List.mem_cons_self _ _)) hp
          refine ⟨hname, ?_, ?_⟩
          · intro value hv
            simp only [List.getElem?_cons_zero, Option.some.injEq] at hv
            subst hv
            simp only [processNode, Except.ok.injEq, Prod.mk.injEq] at hp
            rw [← hp.1]
            rfl
          · intro entries hv
            simp only [List.getElem?_cons_zero, Option.some.injEq] at hv
            subst hv
            simp only [processNode] at hp
            split at hp
            · cases hp
            · next parent2 hm =>
              simp only [Except.ok.injEq, Prod.mk.injEq] at hp
              rw [← hp.1]
              exact hm
        | succ j =>
          simp only [List.getElem?_cons_succ] at hi ⊢
          exact hall j element hi

/-- C13: a mapping entry with key `k` whose value is a sequence of `n >= 1`
items, each a scalar or a mapping, adds to the child nodes of the parent
element exactly the elements that hold the conversions of the items, in
sequence order and next to each other (and fails as soon as the conversion of
an item fails).  There is one such element per item; each is named `k`; the
element of a scalar item has no attribute and the single text node with its
value as only child; the element of a mapping item is the result of processing
that mapping into a new element named `k`. -/
theorem C13_sequence_repeats_element (key : List Char) (items : List YAMLNode)
    (parent : Element) (hne : items ≠ [])
    (hitems : ∀ item ∈ items, item.IsScalar = true ∨ item.IsMap = true) :
    (processMapEntry (some key) (.Sequence items) parent =
      match convertedItems key items with
      | .error err => .error err
      | .ok elements =>
        .ok { nodeName := parent.nodeName
              attributes := parent.attributes
              childNodes := parent.childNodes ++ elements.map Element.toNode }) ∧
    (∀ elements : List Element, convertedItems key items = .ok elements →
      elements.length = items.length ∧
      ∀ (i : Nat) (element : Element), elements[i]? = some element →
        element.nodeName = key ∧
        (∀ value, items[i]? = some (.Scalar value) →
          element = { nodeName := key, attributes := [], childNodes := [.text value] }) ∧
        (∀ entries, items[i]? = some (.Map entries) →
          processMap entries (createElement key) = .ok element)) := by
  refine ⟨?_, convertedItems_spec key items hitems⟩
  have hfirst := processSequence_first key items hne hitems
  simp only [processMapEntry, processMap, YAMLNode.IsScalar, Bool.and_false, Bool.false_eq_true,
    if_false, processNode, hfirst]
  cases hc : convertedItems key items with
  | error err => rfl
  | ok elements =>
    cases elements with
    | nil =>
      have := (convertedItems_spec key items hitems [] hc).1
      simp only [List.length_nil] at this
      exact absurd (List.length_eq_zero.mp this.symm) hne
    | cons xml_key clones => simp [processMap]

/-- C13 at the entry `seq: [val1, val2]` below an element `<clickhouse/>`: the
result is `<seq>val1</seq><seq>val2</seq>`; and at the sequence of mappings
`seq: [{k1: val1, k2: val2}, {k3: val3}]`: the result is
`<seq><k1>val1</k1><k2>val2</k2></seq><seq><k3>val3</k3></seq>`. -/
theorem C13_sequence_repeats_element_witness :
    processMapEntry (some "seq".toList)
        (.Sequence [.Scalar "val1".toList, .Scalar "val2".toList])
        (createElement "clickhouse".toList)
      = .ok { nodeName := "clickhouse".toList
              attributes := []
              childNodes := [.element "seq".toList [] [.text "val1".toList],
                             .element "seq".toList [] [.text "val2".toList]] } ∧
    processMapEntry (some "seq".toList)
        (.Sequence
          [.Map [(some "k1".toList, .Scalar "val1".toList),
                 (some "k2".toList, .Scalar "val2".toList)],
           .Map [(some "k3".toList, .Scalar "val3".toList)]])
        (createElement "clickhouse".toList)
      = .ok { nodeName := "clickhouse".toList
              attributes := []
              childNodes :=
                [.element "seq".toList []
                   [.element "k1".toList [] [.text "val1".toList],
                    .element "k2".toList [] [.text "val2".toList]],
                 .element "seq".toList [] [.element "k3".toList [] [.text "val3".toList]]] } :=
  ⟨((C13_sequence_repeats_element "seq".toList
      [.Scalar "val1".toList, .Scalar "val2".toList] (createElement "clickhouse".toList)
      (List.cons_ne_nil _ _) (by simp [YAMLNode.IsScalar])).1).trans rfl,
   ((C13_sequence_repeats_element "seq".toList
      [.Map [(some "k1".toList, .Scalar "val1".toList),
             (some "k2".toList, .Scalar "val2".toList)],
       .Map [(some "k3".toList, .Scalar "val3".toList)]] (createElement "clickhouse".toList)
      (List.cons_ne_nil _ _)
      (fun item h => by
        rcases List.mem_cons.mp h with h | h
        · subst h; exact Or.inr rfl
        · rcases List.mem_cons.mp h with h | h
          · subst h; exact Or.inr rfl
          · exact absurd h (List.not_mem_nil _))).1).trans rfl⟩

end DB

namespace DBPoco.Data

/-! ## Properties of large objects -/

theorem Storage.get_alloc_new {T : Type} (s : Storage T) (v : List T) :
    (s.alloc v).1.get (s.alloc v).2 = v := by
  simp [Storage.alloc, Storage.get, List.getD_eq_getElem?_getD]

theorem Storage.get_alloc_old {T : Type} (s : Storage T) (v : List T) (address : Nat)
    (h : address < s.cells.length) : (s.alloc v).1.get address = s.get address := by
  simp [Storage.alloc, Storage.get, List.getD_eq_getElem?_getD, List.getElem?_append_left h]

theorem vectorEq_iff {T : Type} [DecidableEq T] (a : List T) :
    ∀ b : List T, vectorEq a b = true ↔ a = b := by
  induction a with
  | nil => intro b; cases b <;> simp [vectorEq]
  | cons x xs ih =>
    intro b
    cases b with
    | nil => simp [vectorEq]
    | cons y ys => simp [vectorEq, ih ys]

/-- C16: a LOB constructed from a vector `v` has content `v` and size
`v.size()`; one constructed from a buffer of `n` elements holds exactly those
`n` elements in order; one constructed from a string holds exactly its
characters; the default constructed LOB is empty.  The content is a copy in a
newly allocated vector: the LOBs that existed before keep their content. -/
theorem C16_construction_round_trips {T : Type} (s : Storage T) (v buffer str : List T)
    (n : Nat) :
    (LOB.content (LOB.fromVector s v).1 (LOB.fromVector s v).2 = v ∧
      LOB.size (LOB.fromVector s v).1 (LOB.fromVector s v).2 = v.length) ∧
    (LOB.content (LOB.fromRaw s buffer buffer.length).1 (LOB.fromRaw s buffer buffer.length).2
        = buffer ∧
      (n ≤ buffer.length →
        LOB.content (LOB.fromRaw s buffer n).1 (LOB.fromRaw s buffer n).2 = buffer.take n ∧
        LOB.size (LOB.fromRaw s buffer n).1 (LOB.fromRaw s buffer n).2 = n)) ∧
    LOB.content (LOB.fromString s str).1 (LOB.fromString s str).2 = str ∧
    LOB.size (LOB.create s).1 (LOB.create s).2 = 0 ∧
    (∀ other : LOB, other._pContent < s.cells.length →
      LOB.content (LOB.fromVector s v).1 other = LOB.content s other ∧
      LOB.content (LOB.fromRaw s buffer n).1 other = LOB.content s other ∧
      LOB.content (LOB.fromString s str).1 other = LOB.content s other ∧
      (LOB.fromVector s v).2 ≠ other) := by
  refine ⟨⟨?_, ?_⟩, ⟨?_, ?_⟩, ?_, ?_, ?_⟩
  · exact Storage.get_alloc_new s v
  · simp [LOB.size, LOB.fromVector, Storage.get_alloc_new]
  · simpa [LOB.content, LOB.fromRaw] using Storage.get_alloc_new s buffer
  · intro hn
    refine ⟨Storage.get_alloc_new s (buffer.take n), ?_⟩
    simp [LOB.size, LOB.fromRaw, Storage.get_alloc_new, hn]
  · exact Storage.get_alloc_new s str
  · simp [LOB.size, LOB.create, Storage.get_alloc_new]
  · intro other h
    refine ⟨Storage.get_alloc_old s v _ h, Storage.get_alloc_old s _ _ h,
      Storage.get_alloc_old s str _ h, ?_⟩
    intro heq
    have : other._pContent = s.cells.length := by rw [← heq]; rfl
    omega

/-- C17: `a == b` holds if and only if the contents of `a` and `b` have the
same length and equal elements at every position, whether or not the two LOBs
share their vector; `a != b` is the negation of `a == b`; `==` is reflexive,
symmetric and transitive. -/
theorem C17_comparison_by_value {T : Type} [DecidableEq T] (s : Storage T) (a b c : LOB) :
    (LOB.operatorEq s a b = true ↔
      (LOB.content s a).length = (LOB.content s b).length ∧
      ∀ i : Nat, i < (LOB.content s a).length →
        (LOB.content s a)[i]? = (LOB.content s b)[i]?) ∧
    (LOB.operatorEq s a b = true ↔ LOB.content s a = LOB.content s b) ∧
    LOB.operatorNe s a b = !LOB.operatorEq s a b ∧
    LOB.operatorEq s a a = true ∧
    (LOB.operatorEq s a b = true → LOB.operatorEq s b a = true) ∧
    (LOB.operatorEq s a b = true → LOB.operatorEq s b c = true →
      LOB.operatorEq s a c = true) := by
  have key : ∀ x y : LOB, LOB.operatorEq s x y = true ↔ LOB.content s x = LOB.content s y :=
    fun x y => vectorEq_iff _ _
  refine ⟨?_, key a b, rfl, (key a a).mpr rfl, ?_, ?_⟩
  · rw [key a b]
    constructor
    · intro h; rw [h]; exact ⟨rfl, fun _ _ => rfl⟩
    · rintro ⟨hlen, hel⟩
      apply List.ext_getElem? 
      intro i
      by_cases hi : i < (LOB.content s a).length
      · exact hel i hi
      · rw [List.getElem?_eq_none (by omega), List.getElem?_eq_none (by omega)]
  · intro h; exact (key b a).mpr ((key a b).mp h).symm
  · intro h1 h2; exact (key a c).mpr (((key a b).mp h1).trans ((key b c).mp h2))

/-- C18: `rawContent()` is the null pointer if and only if the LOB is empty;
otherwise it points at position `0` of the vector of the LOB, that is at the
first element of `content()`. -/
theorem C18_raw_content {T : Type} (s : Storage T) (a : LOB) :
    (LOB.rawContent s a = none ↔ LOB.size s a = 0) ∧
    (LOB.size s a ≠ 0 →
      LOB.rawContent s a = some { address := a._pContent, position := 0 } ∧
      ∃ first, (LOB.content s a).head? = some first ∧
        (LOB.rawContent s a).bind (RawPointer.deref s) = some first) := by
  unfold LOB.rawContent LOB.size LOB.content RawPointer.deref
  cases h : s.get a._pContent with
  | nil => simp
  | cons x xs => simp [h]

theorem Storage.get_set_same {T : Type} (s : Storage T) (address : Nat) (v : List T)
    (h : address < s.cells.length) : (s.set address v).get address = v := by
  simp [Storage.set, Storage.get, List.getD_eq_getElem?_getD, List.getElem?_set, h]

theorem Storage.get_set_other {T : Type} (s : Storage T) (address other : Nat) (v : List T)
    (h : address ≠ other) : (s.set address v).get other = s.get other := by
  simp [Storage.set, Storage.get, List.getD_eq_getElem?_getD, List.getElem?_set, h]

/-- C18 at a LOB holding `[7, 8]` and at an empty LOB. -/
theorem C18_raw_content_witness :
    LOB.rawContent (LOB.fromVector ({ cells := [] } : Storage Nat) [7, 8]).1
        (LOB.fromVector ({ cells := [] } : Storage Nat) [7, 8]).2
      = some { address := 0, position := 0 } ∧
    LOB.rawContent (LOB.create ({ cells := [] } : Storage Nat)).1
        (LOB.create ({ cells := [] } : Storage Nat)).2 = none :=
  ⟨((C18_raw_content (LOB.fromVector ({ cells := [] } : Storage Nat) [7, 8]).1
      (LOB.fromVector ({ cells := [] } : Storage Nat) [7, 8]).2).2 (by decide)).1,
   (C18_raw_content (LOB.create ({ cells := [] } : Storage Nat)).1
      (LOB.create ({ cells := [] } : Storage Nat)).2).1.mpr (by decide)⟩

/-- C19 (as worded, refuted): for a LOB holding `[1, 2]`, `appendRaw` with a
buffer holding `[3]` and `count = 1` leaves the content `[1, 2, 3]` of size
`3`, not the `1` element of the buffer, whereas `assignRaw` with the same
arguments leaves the content `[3]`. -/
theorem C19_counterexample :
    LOB.content (LOB.appendRaw ({ cells := [[1, 2]] } : Storage Nat) { _pContent := 0 } [3] 1)
        { _pContent := 0 } = [1, 2, 3] ∧
    LOB.size (LOB.appendRaw ({ cells := [[1, 2]] } : Storage Nat) { _pContent := 0 } [3] 1)
        { _pContent := 0 } = 3 ∧
    LOB.content (LOB.assignRaw ({ cells := [[1, 2]] } : Storage Nat) { _pContent := 0 } [3] 1).1
        (LOB.assignRaw ({ cells := [[1, 2]] } : Storage Nat) { _pContent := 0 } [3] 1).2
      = [3] ∧
    LOB.content (LOB.appendRaw ({ cells := [[1, 2]] } : Storage Nat) { _pContent := 0 } [3] 1)
        { _pContent := 0 }
      ≠ LOB.content
          (LOB.assignRaw ({ cells := [[1, 2]] } : Storage Nat) { _pContent := 0 } [3] 1).1
          (LOB.assignRaw ({ cells := [[1, 2]] } : Storage Nat) { _pContent := 0 } [3] 1).2 := by
  decide

/-- C19 (amended): `appendRaw` appends raw content to the internal storage:
for every LOB and every buffer of at least `count` elements, after
`appendRaw(pChar, count)` the content of the LOB is its previous content
followed by the first `count` elements of the buffer, and `size()` is the
previous size plus `count`; the LOBs that do not share its vector keep their
content.  After `assignRaw(pChar, count)` the content is exactly those `count`
elements, so the two agree exactly when the LOB was empty before. -/
theorem C19_appendRaw_appends {T : Type} (s : Storage T) (a : LOB) (pChar : List T)
    (count : Nat) (ha : a._pContent < s.cells.length) (hcount : count ≤ pChar.length) :
    LOB.content (LOB.appendRaw s a pChar count) a = LOB.content s a ++ pChar.take count ∧
    LOB.size (LOB.appendRaw s a pChar count) a = LOB.size s a + count ∧
    (∀ other : LOB, other._pContent ≠ a._pContent →
      LOB.content (LOB.appendRaw s a pChar count) other = LOB.content s other) ∧
    (LOB.content (LOB.assignRaw s a pChar count).1 (LOB.assignRaw s a pChar count).2
        = pChar.take count ∧
      LOB.size (LOB.assignRaw s a pChar count).1 (LOB.assignRaw s a pChar count).2 = count) ∧
    (LOB.content (LOB.appendRaw s a pChar count) a
        = LOB.content (LOB.assignRaw s a pChar count).1 (LOB.assignRaw s a pChar count).2
      ↔ LOB.size s a = 0) := by
  have h1 : LOB.content (LOB.appendRaw s a pChar count) a
      = LOB.content s a ++ pChar.take count :=
    Storage.get_set_same s _ _ ha
  have h2 : LOB.content (LOB.assignRaw s a pChar count).1 (LOB.assignRaw s a pChar count).2
      = pChar.take count :=
    Storage.get_alloc_new s (pChar.take count)
  refine ⟨h1, ?_, ?_, ⟨h2, ?_⟩, ?_⟩
  · have := congrArg List.length h1
    simpa [LOB.size, LOB.content, hcount] using this
  · intro other hne
    exact Storage.get_set_other s _ _ _ (Ne.symm hne)
  · have := congrArg List.length h2
    simpa [LOB.size, LOB.content, hcount] using this
  · rw [h1, h2]
    simp [LOB.size, LOB.content]

/-- C19 (amended) at a LOB holding `[1, 2]` and a buffer holding `[3]`. -/
theorem C19_appendRaw_appends_witness :
    LOB.content (LOB.appendRaw ({ cells := [[1, 2]] } : Storage Nat) { _pContent := 0 } [3] 1)
        { _pContent := 0 }
      = LOB.content ({ cells := [[1, 2]] } : Storage Nat) { _pContent := 0 } ++ [3].take 1 :=
  (C19_appendRaw_appends ({ cells := [[1, 2]] } : Storage Nat) { _pContent := 0 } [3] 1
    (by decide) (by decide)).1

end DBPoco.Data
